import Mathlib

/-!
# `user/createfile.c` of xv6-riscv: unique file name allocation

A shallow embedding of `itoa`, `generate_numbered_name` and `main` of
`user/createfile.c`, and the properties of the naming scheme
`name.ext`, `name(1).ext`, `name(2).ext`, ... proved about it.

Memory model.  A `char` buffer is the list of the bytes found from its base
address on; bytes are natural numbers.  A write at an index inside the list
replaces the byte, a write past its end extends the list, and a read past its
end yields the NUL byte.  Distinct buffers do not alias.  `int` values are
integers, reduced by `wrap32` where the C code can overflow.
-/

namespace Createfile

/-! ## Buffers and C strings -/

/-- A `char` buffer, as the bytes from its base address on. -/
abbrev Buf := List Nat

/-- The byte `b[i]`. -/
def bufRead (b : Buf) (i : Nat) : Nat := b.getD i 0

/-- The assignment `b[i] = v`. -/
def bufWrite (b : Buf) (i : Nat) (v : Nat) : Buf :=
  if i < b.length then b.set i v else b ++ List.replicate (i - b.length) 0 ++ [v]

/-- The C string held by a buffer: its bytes before the first NUL. -/
def cstr (b : Buf) : List Nat := b.takeWhile (fun c => c != 0)

/-- The bytes of a string literal, without terminator. -/
def bytes (s : String) : List Nat := s.toList.map Char.toNat

/-- Two's complement reduction of an integer to the range of `int`. -/
def wrap32 (x : Int) : Int := (x + 2147483648) % 4294967296 - 2147483648

/-- Conversion of an `int` to `char`, kept as its byte value. -/
def toChar (x : Int) : Nat := (x % 256).toNat

/-! ## `itoa` -/

/-- The digit loop of `itoa`:
`while (num != 0) { str[i++] = num % 10 + '0'; num = num / 10; }`,
with C's truncating division and remainder. -/
def itoaDigits (num : Int) (str : Buf) (i : Nat) : Buf × Nat :=
  if num ≠ 0 then
    itoaDigits (Int.tdiv num 10) (bufWrite str i (toChar (Int.tmod num 10 + 48))) (i + 1)
  else (str, i)
termination_by num.natAbs
decreasing_by
  rename_i h
  have h10 : (Int.tdiv num 10).natAbs = num.natAbs / 10 := by
    rw [Int.natAbs_tdiv]; rfl
  rw [h10]
  have : 0 < num.natAbs := Int.natAbs_pos.mpr h
  omega

/-- The reversal loop of `itoa`:
`while (start < end) { swap str[start], str[end]; start++; end--; }`. -/
def itoaReverse (str : Buf) (start end_ : Nat) : Buf :=
  if start < end_ then
    let temp := bufRead str start
    let str1 := bufWrite str start (bufRead str end_)
    let str2 := bufWrite str1 end_ temp
    itoaReverse str2 (start + 1) (end_ - 1)
  else str
termination_by end_ - start

/-- The function `itoa(num, str)`; the result is the buffer `str` after the call. -/
def itoa (num : Int) (str : Buf) : Buf :=
  let is_negative : Bool := decide (num < 0)
  let num : Int := if num < 0 then wrap32 (-num) else num
  if num = 0 then
    bufWrite (bufWrite str 0 48) 1 0
  else
    let r := itoaDigits num str 0
    let r := if is_negative then (bufWrite r.1 r.2 45, r.2 + 1) else r
    let str := bufWrite r.1 r.2 0
    itoaReverse str 0 (r.2 - 1)

/-! ## `generate_numbered_name` -/

/-- The scan for the last dot:
`while (base_name[i] != '\0') { if (base_name[i] == '.') dot = &base_name[i]; i++; }`.
The pointer `dot` is kept as the index it points to, `none` for the null pointer. -/
def findDot (base_name : Buf) (i : Nat) (dot : Option Nat) : Option Nat :=
  if h : bufRead base_name i ≠ 0 then
    findDot base_name (i + 1) (if bufRead base_name i = 46 then some i else dot)
  else dot
termination_by base_name.length - i
decreasing_by
  have hi : i < base_name.length := by
    by_contra hc
    apply h
    simp only [bufRead]
    exact List.getD_eq_default _ _ (by omega)
  omega

/-- The copy of the stem:
`while (&base_name[i] != dot) numbered_name[j++] = base_name[i++];`.
The index `i` counts up from 0 to the index `d` of the dot, where `i != d` and
`i < d` agree. -/
def copyStem (base_name : Buf) (d : Nat) (i j : Nat) (numbered_name : Buf) : Buf × Nat :=
  if i < d then
    copyStem base_name d (i + 1) (j + 1) (bufWrite numbered_name j (bufRead base_name i))
  else (numbered_name, j)
termination_by d - i

/-- The copy of a C string:
`while (src[i] != '\0') numbered_name[j++] = src[i++];`. -/
def copyString (src : Buf) (i j : Nat) (numbered_name : Buf) : Buf × Nat :=
  if h : bufRead src i ≠ 0 then
    copyString src (i + 1) (j + 1) (bufWrite numbered_name j (bufRead src i))
  else (numbered_name, j)
termination_by src.length - i
decreasing_by
  have hi : i < src.length := by
    by_contra hc
    apply h
    simp only [bufRead]
    exact List.getD_eq_default _ _ (by omega)
  omega

/-- The function `generate_numbered_name(base_name, numbered_name, num)`; the
result is the buffer `numbered_name` after the call.  `numstr` is the content
the local array `numstr` has when the function is entered. -/
def generate_numbered_name (base_name : Buf) (numbered_name : Buf) (num : Int)
    (numstr : Buf) : Buf :=
  let dot := findDot base_name 0 none
  let r : Buf × Nat :=
    match dot with
    | some d => copyStem base_name d 0 0 numbered_name
    | none => copyString base_name 0 0 numbered_name
  let numbered_name := bufWrite r.1 r.2 40
  let j := r.2 + 1
  let numstr := itoa num numstr
  let r := copyString numstr 0 j numbered_name
  let numbered_name := bufWrite r.1 r.2 41
  let j := r.2 + 1
  let r : Buf × Nat :=
    match dot with
    | some d => copyString (base_name.drop d) 0 j numbered_name
    | none => (numbered_name, j)
  bufWrite r.1 r.2 0

/-! ## The file system and the run of `main` -/

/-- The file system, as far as the program observes it: the value returned by
`open(name, O_RDONLY)` and by `open(name, O_CREATE | O_RDWR)` for each name. -/
structure FileSys where
  open_rdonly : List Nat → Int
  open_create : List Nat → Int

/-- The function `file_exists(filename)`: 0 when `open` fails, 1 otherwise. -/
def file_exists (fs : FileSys) (filename : Buf) : Int :=
  let fd := fs.open_rdonly (cstr filename)
  if fd < 0 then 0 else 1

/-- The existence predicate on names that `file_exists` computes. -/
def present (fs : FileSys) (name : List Nat) : Bool := decide (0 ≤ fs.open_rdonly name)

/-- What a run does that can be observed, in order. -/
inductive Event where
  /-- A call `file_exists(name)` and whether it found the file. -/
  | query (name : List Nat) (found : Bool)
  /-- A call `generate_numbered_name(filename, numbered_filename, num)`. -/
  | generate (num : Int)
  /-- A call `open(name, O_CREATE | O_RDWR)` and whether it succeeded. -/
  | create (name : List Nat) (ok : Bool)
  /-- The text written by one call of `printf`. -/
  | print (text : List Nat)
deriving DecidableEq, Repr

/-- A finished run: its events and the status passed to `exit`. -/
structure Run where
  trace : List Event
  status : Int
deriving DecidableEq, Repr

/-- The run that performs `evs` and then continues as `r`. -/
def Run.after (evs : List Event) (r : Run) : Run := ⟨evs ++ r.trace, r.status⟩

/-- Modelled from the spec: `memmove(dst, src, n)` of the user library, which is
not among the sources; it copies the `n` bytes `src[0..n-1]` to `dst[0..n-1]`
(the two buffers of each call in `main` do not overlap). -/
def memmove (dst src : Buf) (n : Nat) : Buf :=
  (List.range n).foldl (fun d k => bufWrite d k (bufRead src k)) dst

/-- Modelled from the spec: `strlen(s)` of the user library, which is not among
the sources; the number of bytes before the first NUL. -/
def strlen (s : Buf) : Nat := (cstr s).length

/-- Modelled from the spec: the output of `printf(fmt, s)` of the user library
for a format `pre%spost`, which is not among the sources: `pre`, the C string
`s`, `post`. -/
def printf_s (pre : List Nat) (s : Buf) (post : List Nat) : List Nat :=
  pre ++ cstr s ++ post

/-- The text `Error: couldn't create file <name>` and a newline. -/
def msgCreateFailed (s : Buf) : List Nat :=
  printf_s (bytes "Error: couldn't create file ") s [10]

/-- The text `Created: <name>` and a newline. -/
def msgCreated (s : Buf) : List Nat := printf_s (bytes "Created: ") s [10]

/-- The text `Error: too many files with similar names` and a newline. -/
def msgExhausted : List Nat := bytes "Error: too many files with similar names" ++ [10]

/-- Lines 105-110 of `main`: the buffer `filename` after the default name or
`argv[1]` has been copied into it.  The string literal occupies 13 bytes, its
terminator included; each entry of `argv` is the buffer its pointer points to,
and an entry that is not there reads as the empty string. -/
def init_filename (argc : Int) (argv : List Buf) (filename : Buf) : Buf :=
  if argc = 1 then
    memmove filename (bytes "untitled.txt" ++ [0]) 12
  else
    memmove filename (argv.getD 1 []) (strlen (argv.getD 1 []) + 1)

/-- Lines 114-121 and 132-139 of `main`: the creation of the file named by the
buffer `name`, the report, and the exit status. -/
def create_and_report (fs : FileSys) (name : Buf) : Run :=
  let fd := fs.open_create (cstr name)
  if fd < 0 then
    ⟨[Event.create (cstr name) false, Event.print (msgCreateFailed name)], 1⟩
  else
    ⟨[Event.create (cstr name) true, Event.print (msgCreated name)], 0⟩

/-- Lines 126-147 of `main`: the loop over the numbered names from `counter` on.
`counter` takes the values 1 .. 1000 and is kept as a natural number.
`numstr0 n` is the content of the local array `numstr` at the entry of the call
of `generate_numbered_name` for `counter = n`. -/
def main_loop (fs : FileSys) (filename numbered_filename : Buf) (numstr0 : Nat → Buf)
    (counter : Nat) : Run :=
  let numbered_filename :=
    generate_numbered_name filename numbered_filename (counter : Int) (numstr0 counter)
  if file_exists fs numbered_filename = 0 then
    Run.after [Event.generate counter, Event.query (cstr numbered_filename) false]
      (create_and_report fs numbered_filename)
  else
    Run.after [Event.generate counter, Event.query (cstr numbered_filename) true]
      (if counter + 1 > 999 then
        ⟨[Event.print msgExhausted], 1⟩
      else
        main_loop fs filename numbered_filename numstr0 (counter + 1))
termination_by 1000 - counter

/-- Lines 112-149 of `main`: the allocation, from the buffer `filename` holding
the desired name. -/
def allocate (fs : FileSys) (filename numbered_filename : Buf) (numstr0 : Nat → Buf) : Run :=
  if file_exists fs filename = 0 then
    Run.after [Event.query (cstr filename) false] (create_and_report fs filename)
  else
    Run.after [Event.query (cstr filename) true]
      (main_loop fs filename numbered_filename numstr0 1)

/-- The function `main(argc, argv)`.  `filename` and `numbered_filename` are the
contents of the two local arrays when `main` is entered. -/
def main (argc : Int) (argv : List Buf) (filename numbered_filename : Buf)
    (numstr0 : Nat → Buf) (fs : FileSys) : Run :=
  allocate fs (init_filename argc argv filename) numbered_filename numstr0

/-! ## The decimal numeral of the specification -/

/-- The minimal decimal numeral of `n`, most significant digit first, as ASCII
bytes: `0` for zero, no leading zero otherwise. -/
def decimal (n : Nat) : List Nat :=
  if n = 0 then [48] else ((Nat.digits 10 n).map (fun d => d + 48)).reverse

/-- The value of a string of ASCII digits read as a base-10 numeral. -/
def decimalValue (s : List Nat) : Nat := s.foldl (fun acc c => 10 * acc + (c - 48)) 0

/-! ## Candidates and observations of a run -/

/-- The `n`-th numbered name for the name held by `filename`: the C string that
`generate_numbered_name` leaves in the output buffer. -/
def candidate (filename : Buf) (n : Nat) : List Nat :=
  cstr (generate_numbered_name filename [] (n : Int) [])

/-- The existence checks of a trace, in order: the name and the answer. -/
def queries : List Event → List (List Nat × Bool)
  | [] => []
  | Event.query name found :: tr => (name, found) :: queries tr
  | _ :: tr => queries tr

/-- The arguments `num` of the calls of `generate_numbered_name`, in order. -/
def generated : List Event → List Int
  | [] => []
  | Event.generate num :: tr => num :: generated tr
  | _ :: tr => generated tr

/-- The calls of `open(name, O_CREATE | O_RDWR)` of a trace, in order: the name
and whether it succeeded. -/
def creates : List Event → List (List Nat × Bool)
  | [] => []
  | Event.create name ok :: tr => (name, ok) :: creates tr
  | _ :: tr => creates tr

/-- The text printed by a trace. -/
def stdout : List Event → List Nat
  | [] => []
  | Event.print text :: tr => text ++ stdout tr
  | _ :: tr => stdout tr

/-- The events of `k` iterations of the loop of `main` from `counter = c` on, in
each of which the numbered name is found to exist. -/
def takenEvents (filename : Buf) : Nat → Nat → List Event
  | _, 0 => []
  | c, k + 1 =>
    Event.generate (c : Int) :: Event.query (candidate filename c) true ::
      takenEvents filename (c + 1) k

/-- The names `[desired, candidate 1, ..., candidate k]`. -/
def probeOrder (filename : Buf) (k : Nat) : List (List Nat) :=
  cstr filename :: (List.range' 1 k).map (candidate filename)

/-- Following the specification: the extension of a name, its text from the last
`.` on, and the empty text for a name without `.`. -/
def extensionOf : List Nat → List Nat
  | [] => []
  | c :: s => if 46 ∈ s then extensionOf s else if c = 46 then c :: s else []

/-! ## Reads and writes -/

theorem bufRead_eq_zero_of_le (b : Buf) (i : Nat) (h : b.length ≤ i) : bufRead b i = 0 := by
  simp only [bufRead]
  exact List.getD_eq_default _ _ h

theorem bufRead_of_lt (b : Buf) (i : Nat) (h : i < b.length) : bufRead b i = b[i] := by
  simp only [bufRead]
  exact List.getD_eq_getElem _ _ h

theorem bufRead_append_cons (pre : List Nat) (x : Nat) (post : List Nat) (i : Nat)
    (hi : i = pre.length) : bufRead (pre ++ x :: post) i = x := by
  subst hi
  induction pre with
  | nil => simp [bufRead]
  | cons y ys ih => simpa [bufRead] using ih

theorem bufWrite_append (pre rest : List Nat) (i v : Nat) (hi : i = pre.length) :
    bufWrite (pre ++ rest) i v = pre ++ v :: rest.drop 1 := by
  subst hi
  cases rest with
  | nil => simp [bufWrite]
  | cons x xs => simp [bufWrite]

theorem bufWrite_zero (rest : List Nat) (v : Nat) : bufWrite rest 0 v = v :: rest.drop 1 :=
  bufWrite_append [] rest 0 v rfl

/-- The C string at offset `i` of a buffer, when `b[i]` is not NUL. -/
theorem cstr_drop_of_ne (b : Buf) (i : Nat) (h : bufRead b i ≠ 0) :
    cstr (b.drop i) = bufRead b i :: cstr (b.drop (i + 1)) := by
  have hi : i < b.length := by
    by_contra hc
    exact h (bufRead_eq_zero_of_le b i (by omega))
  rw [bufRead_of_lt b i hi] at h ⊢
  simp only [cstr]
  rw [List.drop_eq_getElem_cons hi, List.takeWhile_cons, if_pos (by simpa using h)]

/-- The C string at offset `i` of a buffer, when `b[i]` is NUL. -/
theorem cstr_drop_of_eq (b : Buf) (i : Nat) (h : bufRead b i = 0) : cstr (b.drop i) = [] := by
  by_cases hi : i < b.length
  · rw [bufRead_of_lt b i hi] at h
    simp only [cstr]
    rw [List.drop_eq_getElem_cons hi, List.takeWhile_cons, if_neg (by simp [h])]
  · rw [List.drop_eq_nil_of_le (by omega)]
    rfl

theorem cstr_no_nul (b : Buf) : ∀ c ∈ cstr b, c ≠ 0 := by
  intro c hc
  have := List.mem_takeWhile_imp hc
  simpa using this

/-- A NUL-free text followed by NUL is the C string of the buffer. -/
theorem cstr_append_nul (s rest : List Nat) (hs : ∀ c ∈ s, c ≠ 0) :
    cstr (s ++ 0 :: rest) = s := by
  induction s with
  | nil => simp [cstr]
  | cons x xs ih =>
    have hx : x ≠ 0 := hs x (List.mem_cons_self _ _)
    have := ih (fun c hc => hs c (List.mem_cons_of_mem _ hc))
    simp only [cstr] at this ⊢
    simp [hx, this]

theorem cstr_of_no_nul (s : List Nat) (hs : ∀ c ∈ s, c ≠ 0) : cstr s = s := by
  induction s with
  | nil => rfl
  | cons x xs ih =>
    have hx : x ≠ 0 := hs x (List.mem_cons_self _ _)
    have := ih (fun c hc => hs c (List.mem_cons_of_mem _ hc))
    simp only [cstr] at this ⊢
    simp [hx, this]

theorem cstr_idem (b : Buf) : cstr (cstr b) = cstr b := cstr_of_no_nul _ (cstr_no_nul b)

/-! ## `itoa` on non-negative numbers -/

theorem toChar_digit (d : Nat) (hd : d < 10) : toChar ((d : Int) + 48) = d + 48 := by
  simp only [toChar]
  omega

/-- The digit loop writes the digits of `n`, least significant first, from
index `i` on, and leaves the rest of the buffer as it was. -/
theorem itoaDigits_natCast (n : Nat) : ∀ (pre rest : List Nat) (i : Nat), i = pre.length →
    itoaDigits (n : Int) (pre ++ rest) i =
      (pre ++ (Nat.digits 10 n).map (fun d => d + 48) ++ rest.drop (Nat.digits 10 n).length,
        i + (Nat.digits 10 n).length) := by
  induction n using Nat.strong_induction_on with
  | _ n ih =>
    intro pre rest i hi
    rw [itoaDigits]
    by_cases hn : n = 0
    · subst hn
      simp
    · have hpos : 0 < n := Nat.pos_of_ne_zero hn
      have hne : (n : Int) ≠ 0 := by exact_mod_cast hn
      rw [if_pos hne]
      have hdiv : Int.tdiv (n : Int) 10 = ((n / 10 : Nat) : Int) := by
        rw [Int.tdiv_eq_ediv (Int.natCast_nonneg n) (by norm_num : (0 : Int) ≤ 10)]
        norm_cast
      have hmod : Int.tmod (n : Int) 10 = ((n % 10 : Nat) : Int) := by
        rw [Int.tmod_eq_emod (Int.natCast_nonneg n) (by norm_num : (0 : Int) ≤ 10)]
        norm_cast
      rw [hdiv, hmod, toChar_digit _ (Nat.mod_lt _ (by omega)), bufWrite_append pre rest i _ hi]
      have hstep := ih (n / 10) (Nat.div_lt_self hpos (by omega)) (pre ++ [n % 10 + 48])
        (rest.drop 1) (i + 1) (by simp [hi])
      have hcons : pre ++ (n % 10 + 48) :: rest.drop 1 = (pre ++ [n % 10 + 48]) ++ rest.drop 1 := by
        simp
      rw [hcons, hstep, Nat.digits_def' (by omega) hpos]
      simp
      omega

/-- The reversal loop reverses the segment between `start` and `end` in place. -/
theorem itoaReverse_segment (k : Nat) : ∀ (mid pre post : List Nat) (start end_ : Nat),
    mid.length = k → start = pre.length → end_ = pre.length + mid.length - 1 →
    itoaReverse (pre ++ mid ++ post) start end_ = pre ++ mid.reverse ++ post := by
  induction k using Nat.strong_induction_on with
  | _ k ih =>
    intro mid pre post start end_ hk hs he
    rw [itoaReverse]
    cases mid with
    | nil =>
      have : ¬ start < end_ := by simp at he; omega
      simp [this]
    | cons x xs =>
      rcases List.eq_nil_or_concat xs with hxs | ⟨ys, y, hxs⟩
      · subst hxs
        have : ¬ start < end_ := by simp at he; omega
        simp [this]
      · rw [List.concat_eq_append] at hxs
        subst hxs
        have hlt : start < end_ := by simp at he; omega
        rw [if_pos hlt]
        have hbuf : pre ++ x :: (ys ++ [y]) ++ post = pre ++ x :: (ys ++ y :: post) := by simp
        have hbuf2 : pre ++ x :: (ys ++ y :: post) = (pre ++ x :: ys) ++ y :: post := by simp
        have hend : end_ = (pre ++ x :: ys).length := by simp at he ⊢; omega
        have hr1 : bufRead (pre ++ x :: (ys ++ [y]) ++ post) start = x := by
          rw [hbuf]; exact bufRead_append_cons pre x _ start hs
        have hr2 : bufRead (pre ++ x :: (ys ++ [y]) ++ post) end_ = y := by
          rw [hbuf, hbuf2]; exact bufRead_append_cons _ y post end_ hend
        simp only [hr1, hr2]
        have hw1 : bufWrite (pre ++ x :: (ys ++ [y]) ++ post) start y
            = (pre ++ y :: ys) ++ y :: post := by
          rw [hbuf, bufWrite_append pre _ start y hs]; simp
        have hend2 : end_ = (pre ++ y :: ys).length := by simp at he ⊢; omega
        have hw2 : bufWrite ((pre ++ y :: ys) ++ y :: post) end_ x
            = (pre ++ [y]) ++ ys ++ (x :: post) := by
          rw [bufWrite_append _ _ end_ x hend2]; simp
        rw [hw1, hw2]
        have := ih ys.length (by simp at hk; omega) ys (pre ++ [y]) (x :: post) (start + 1)
          (end_ - 1) rfl (by simp [hs]) (by simp at he ⊢; omega)
        rw [this]
        simp

theorem decimal_digit_chars (n : Nat) :
    ∀ c ∈ (Nat.digits 10 n).map (fun d => d + 48), 48 ≤ c ∧ c ≤ 57 := by
  intro c hc
  obtain ⟨d, hd, rfl⟩ := List.mem_map.mp hc
  have := Nat.digits_lt_base (by norm_num : 1 < 10) hd
  omega

/-- The buffer after `itoa(n, str)` for a positive `n`: the numeral, its
terminator, and the bytes of `str` that were not written. -/
theorem itoa_pos_buf (n : Nat) (hn : 0 < n) (str : Buf) :
    itoa (n : Int) str = decimal n ++ 0 :: str.drop ((decimal n).length + 1) := by
  have hneg : ¬ ((n : Int) < 0) := by omega
  have hne : (n : Int) ≠ 0 := by omega
  simp only [itoa, hneg, if_false, hne, decide_False, Bool.false_eq_true]
  have hd := itoaDigits_natCast n [] str 0 rfl
  simp only [List.nil_append, Nat.zero_add] at hd
  rw [hd]
  simp only
  rw [bufWrite_append _ _ _ _ (by simp)]
  have hrev := itoaReverse_segment _ ((Nat.digits 10 n).map (fun d => d + 48)) []
    (0 :: (str.drop (Nat.digits 10 n).length).drop 1) 0 ((Nat.digits 10 n).length - 1) rfl rfl
    (by simp)
  simp only [List.nil_append] at hrev
  rw [hrev]
  simp [decimal, Nat.ne_of_gt hn, Nat.add_comm]

theorem itoa_zero_buf (str : Buf) : itoa 0 str = 48 :: 0 :: str.drop 2 := by
  have h1 : bufWrite str 0 48 = [48] ++ str.drop 1 := bufWrite_zero str 48
  have h2 := bufWrite_append [48] (str.drop 1) 1 0 rfl
  simp only [itoa, lt_self_iff_false, if_false, if_true, h1, h2]
  simp

theorem decimal_no_nul (n : Nat) : ∀ c ∈ decimal n, c ≠ 0 := by
  intro c hc
  unfold decimal at hc
  split at hc
  · simp at hc; omega
  · have := decimal_digit_chars n c (by simpa using hc)
    omega

/-- The numeral written by `itoa` for a non-negative number, whatever the
buffer held before. -/
theorem cstr_itoa_natCast (n : Nat) (str : Buf) : cstr (itoa (n : Int) str) = decimal n := by
  rcases Nat.eq_zero_or_pos n with h | h
  · subst h
    have h0 : ((0 : Nat) : Int) = 0 := rfl
    rw [h0, itoa_zero_buf]
    exact cstr_append_nul [48] _ (by simp)
  · rw [itoa_pos_buf n h]
    exact cstr_append_nul _ _ (decimal_no_nul n)

/-! ## `generate_numbered_name` -/

/-- A text with a dot splits at its last dot. -/
theorem exists_last_dot (name : List Nat) (h : 46 ∈ name) :
    ∃ u v, name = u ++ 46 :: v ∧ 46 ∉ v := by
  have hr : 46 ∈ name.reverse := List.mem_reverse.mpr h
  obtain ⟨as, bs, hab, hnot⟩ := List.eq_append_cons_of_mem hr
  refine ⟨bs.reverse, as.reverse, ?_, by simpa using hnot⟩
  have := congrArg List.reverse hab
  simpa using this

/-- The scan leaves `dot` as it was when the rest of the name has no dot, and
at the last dot otherwise. -/
theorem findDot_spec (s : List Nat) : ∀ (b : Buf) (i : Nat) (dot : Option Nat),
    cstr (b.drop i) = s →
    (46 ∉ s → findDot b i dot = dot) ∧
    (∀ u v, s = u ++ 46 :: v → 46 ∉ v → findDot b i dot = some (i + u.length)) := by
  induction s with
  | nil =>
    intro b i dot hs
    have h0 : bufRead b i = 0 := by
      by_contra hne
      rw [cstr_drop_of_ne b i hne] at hs
      exact absurd hs (by simp)
    refine ⟨fun _ => ?_, fun u v huv _ => ?_⟩
    · rw [findDot]; simp [h0]
    · exact absurd huv (by simp)
  | cons c s ih =>
    intro b i dot hs
    have hne : bufRead b i ≠ 0 := by
      intro h0
      rw [cstr_drop_of_eq b i h0] at hs
      exact absurd hs (by simp)
    rw [cstr_drop_of_ne b i hne] at hs
    obtain ⟨hc, hs'⟩ := List.cons.inj hs
    have ih' := ih b (i + 1) (if bufRead b i = 46 then some i else dot) hs'
    rw [findDot, dif_pos hne]
    refine ⟨fun hno => ?_, fun u v huv hv => ?_⟩
    · have hc46 : bufRead b i ≠ 46 := by
        rw [hc]; intro h; exact hno (by simp [h])
      rw [ih'.1 (fun h => hno (List.mem_cons_of_mem _ h)), if_neg hc46]
    · cases u with
      | nil =>
        simp only [List.nil_append] at huv
        obtain ⟨h1, h2⟩ := List.cons.inj huv
        rw [ih'.1 (by rw [h2]; exact hv), if_pos (by rw [hc, h1])]
        simp
      | cons x u' =>
        simp only [List.cons_append] at huv
        obtain ⟨_, h2⟩ := List.cons.inj huv
        rw [ih'.2 u' v h2 hv]
        simp only [List.length_cons]
        congr 1
        omega

/-- The string copy appends the C string found at `src[i]` to what the output
buffer holds up to `j`. -/
theorem copyString_spec (s : List Nat) : ∀ (src : Buf) (i : Nat) (t rest : List Nat) (j : Nat),
    cstr (src.drop i) = s → j = t.length →
    copyString src i j (t ++ rest) = (t ++ s ++ rest.drop s.length, j + s.length) := by
  induction s with
  | nil =>
    intro src i t rest j hs hj
    have h0 : bufRead src i = 0 := by
      by_contra hne
      rw [cstr_drop_of_ne src i hne] at hs
      exact absurd hs (by simp)
    rw [copyString]
    simp [h0]
  | cons c s ih =>
    intro src i t rest j hs hj
    have hne : bufRead src i ≠ 0 := by
      intro h0
      rw [cstr_drop_of_eq src i h0] at hs
      exact absurd hs (by simp)
    rw [cstr_drop_of_ne src i hne] at hs
    obtain ⟨hc, hs'⟩ := List.cons.inj hs
    rw [copyString, dif_pos hne, hc, bufWrite_append t rest j c hj]
    have := ih src (i + 1) (t ++ [c]) (rest.drop 1) (j + 1) hs' (by simp [hj])
    have hcons : t ++ c :: rest.drop 1 = (t ++ [c]) ++ rest.drop 1 := by simp
    rw [hcons, this]
    simp
    omega

/-- The stem copy appends the bytes `base_name[i..d-1]` to what the output
buffer holds up to `j`. -/
theorem copyStem_spec (todo : List Nat) : ∀ (done tail : List Nat) (d i : Nat)
    (t rest : List Nat) (j : Nat),
    i = done.length → d = done.length + todo.length → j = t.length →
    copyStem (done ++ todo ++ tail) d i j (t ++ rest)
      = (t ++ todo ++ rest.drop todo.length, j + todo.length) := by
  induction todo with
  | nil =>
    intro done tail d i t rest j hi hd hj
    rw [copyStem]
    have : ¬ i < d := by simp at hd; omega
    simp [this]
  | cons c todo ih =>
    intro done tail d i t rest j hi hd hj
    rw [copyStem]
    have hlt : i < d := by simp at hd; omega
    have hread : bufRead (done ++ c :: todo ++ tail) i = c := by
      have : done ++ c :: todo ++ tail = done ++ c :: (todo ++ tail) := by simp
      rw [this]
      exact bufRead_append_cons done c _ i hi
    rw [if_pos hlt, hread, bufWrite_append t rest j c hj]
    have hb : done ++ c :: todo ++ tail = (done ++ [c]) ++ todo ++ tail := by simp
    have hcons : t ++ c :: rest.drop 1 = (t ++ [c]) ++ rest.drop 1 := by simp
    have := ih (done ++ [c]) tail d (i + 1) (t ++ [c]) (rest.drop 1) (j + 1) (by simp [hi])
      (by simp at hd ⊢; omega) (by simp [hj])
    rw [hb, hcons, this]
    simp
    omega

theorem cstr_drop_prefix (u : List Nat) : ∀ (b : Buf) (w : List Nat),
    cstr b = u ++ w → cstr (b.drop u.length) = w := by
  induction u with
  | nil => intro b w h; simpa using h
  | cons x u ih =>
    intro b w h
    cases b with
    | nil => simp [cstr] at h
    | cons y b =>
      by_cases hy : y = 0
      · simp [cstr, hy] at h
      · have hy' : (y != 0) = true := by simpa using hy
        simp only [cstr, List.takeWhile_cons, hy', if_true, List.cons_append] at h
        obtain ⟨_, h2⟩ := List.cons.inj h
        simpa using ih b w h2

theorem cstr_prefix (b : Buf) : ∃ tail, b = cstr b ++ tail :=
  ⟨b.dropWhile (fun c => c != 0), (List.takeWhile_append_dropWhile _ b).symm⟩

/-- The buffer after `generate_numbered_name` for a base name with a dot, split
at its last dot: the numbered name, its terminator, and the bytes of the output
buffer that were not written. -/
theorem generate_buf_dot (b out : Buf) (num : Int) (numstr : Buf) (u v : List Nat)
    (h : cstr b = u ++ 46 :: v) (hv : 46 ∉ v) :
    generate_numbered_name b out num numstr
      = (u ++ [40] ++ cstr (itoa num numstr) ++ [41] ++ 46 :: v) ++
        0 :: out.drop ((u ++ [40] ++ cstr (itoa num numstr) ++ [41] ++ 46 :: v).length + 1) := by
  have hfd : findDot b 0 none = some u.length := by
    have := (findDot_spec (cstr b) b 0 none (by simp)).2 u v h hv
    simpa using this
  obtain ⟨tail, hb⟩ := cstr_prefix b
  have hstem : copyStem b u.length 0 0 out = (u ++ out.drop u.length, u.length) := by
    have := copyStem_spec u [] (46 :: v ++ tail) u.length 0 [] out 0 rfl (by simp) rfl
    have hb' : b = [] ++ u ++ (46 :: v ++ tail) := by rw [hb, h]; simp
    rw [← hb'] at this
    simpa using this
  have hext : cstr ((b.drop u.length).drop 0) = 46 :: v := by
    simpa using cstr_drop_prefix u b (46 :: v) h
  simp only [generate_numbered_name, hfd, hstem]
  rw [bufWrite_append u _ _ 40 rfl]
  have h1 : u ++ 40 :: (out.drop u.length).drop 1 = (u ++ [40]) ++ (out.drop u.length).drop 1 := by
    simp
  rw [h1, copyString_spec (cstr (itoa num numstr)) (itoa num numstr) 0 (u ++ [40]) _
    (u.length + 1) (by simp) (by simp)]
  simp only
  rw [bufWrite_append _ _ _ 41 (by simp; omega)]
  have h2 : ∀ r : List Nat, u ++ [40] ++ cstr (itoa num numstr) ++ 41 :: r
      = (u ++ [40] ++ cstr (itoa num numstr) ++ [41]) ++ r := by intro r; simp
  rw [h2, copyString_spec (46 :: v) (b.drop u.length) 0 _ _ _ hext (by simp; omega)]
  simp only
  rw [bufWrite_append _ _ _ 0 (by simp; omega)]
  simp only [List.drop_drop, List.length_append, List.length_cons, List.length_nil,
    List.append_assoc, List.cons_append, List.nil_append, List.append_cancel_left_eq,
    List.cons.injEq, true_and]
  congr 1
  omega

/-- The buffer after `generate_numbered_name` for a base name without a dot. -/
theorem generate_buf_nodot (b out : Buf) (num : Int) (numstr : Buf) (h : 46 ∉ cstr b) :
    generate_numbered_name b out num numstr
      = (cstr b ++ [40] ++ cstr (itoa num numstr) ++ [41]) ++
        0 :: out.drop ((cstr b ++ [40] ++ cstr (itoa num numstr) ++ [41]).length + 1) := by
  have hfd : findDot b 0 none = none := (findDot_spec (cstr b) b 0 none (by simp)).1 h
  have hcopy := copyString_spec (cstr b) b 0 [] out 0 (by simp) rfl
  simp only [List.nil_append, Nat.zero_add] at hcopy
  simp only [generate_numbered_name, hfd, hcopy]
  rw [bufWrite_append (cstr b) _ _ 40 rfl]
  have h1 : cstr b ++ 40 :: (out.drop (cstr b).length).drop 1
      = (cstr b ++ [40]) ++ (out.drop (cstr b).length).drop 1 := by simp
  rw [h1, copyString_spec (cstr (itoa num numstr)) (itoa num numstr) 0 (cstr b ++ [40]) _
    ((cstr b).length + 1) (by simp) (by simp)]
  simp only
  rw [bufWrite_append _ _ _ 41 (by simp; omega)]
  have h2 : ∀ r : List Nat, cstr b ++ [40] ++ cstr (itoa num numstr) ++ 41 :: r
      = (cstr b ++ [40] ++ cstr (itoa num numstr) ++ [41]) ++ r := by intro r; simp
  rw [h2, bufWrite_append _ _ _ 0 (by simp; omega)]
  simp only [List.drop_drop, List.length_append, List.length_cons, List.length_nil,
    List.append_assoc, List.cons_append, List.nil_append, List.append_cancel_left_eq,
    List.cons.injEq, true_and]
  congr 1
  omega

theorem not_mem_of_append_eq_cstr {b : Buf} {u w : List Nat} (h : cstr b = u ++ w) :
    (∀ c ∈ u, c ≠ 0) ∧ (∀ c ∈ w, c ≠ 0) := by
  have hb := cstr_no_nul b
  rw [h] at hb
  exact ⟨fun c hc => hb c (List.mem_append_left _ hc), fun c hc => hb c (List.mem_append_right _ hc)⟩

/-- The name written for a base name with a dot, split at its last dot. -/
theorem generate_cstr_dot (b out : Buf) (num : Int) (numstr : Buf) (u v : List Nat)
    (h : cstr b = u ++ 46 :: v) (hv : 46 ∉ v) :
    cstr (generate_numbered_name b out num numstr)
      = u ++ [40] ++ cstr (itoa num numstr) ++ [41] ++ 46 :: v := by
  rw [generate_buf_dot b out num numstr u v h hv]
  apply cstr_append_nul
  obtain ⟨hu, hw⟩ := not_mem_of_append_eq_cstr h
  intro c hc
  simp only [List.mem_append, List.mem_cons, List.mem_singleton, List.not_mem_nil,
    or_false] at hc
  rcases hc with (((hc | hc) | hc) | hc) | hc
  · exact hu c hc
  · omega
  · exact cstr_no_nul _ c hc
  · omega
  · rcases hc with hc | hc
    · omega
    · exact hw c (List.mem_cons_of_mem _ hc)

/-- The name written for a base name without a dot. -/
theorem generate_cstr_nodot (b out : Buf) (num : Int) (numstr : Buf) (h : 46 ∉ cstr b) :
    cstr (generate_numbered_name b out num numstr)
      = cstr b ++ [40] ++ cstr (itoa num numstr) ++ [41] := by
  rw [generate_buf_nodot b out num numstr h]
  apply cstr_append_nul
  intro c hc
  simp only [List.mem_append, List.mem_cons, List.mem_singleton, List.not_mem_nil,
    or_false] at hc
  rcases hc with ((hc | hc) | hc) | hc
  · exact cstr_no_nul _ c hc
  · omega
  · exact cstr_no_nul _ c hc
  · omega

/-- The name written depends on the output buffer and on `numstr` only through
the numeral that `itoa` leaves. -/
theorem generate_cstr_congr (b out out' : Buf) (num : Int) (numstr numstr' : Buf)
    (hn : cstr (itoa num numstr) = cstr (itoa num numstr')) :
    cstr (generate_numbered_name b out num numstr)
      = cstr (generate_numbered_name b out' num numstr') := by
  by_cases h : 46 ∈ cstr b
  · obtain ⟨u, v, huv, hv⟩ := exists_last_dot _ h
    rw [generate_cstr_dot b out num numstr u v huv hv,
      generate_cstr_dot b out' num numstr' u v huv hv, hn]
  · rw [generate_cstr_nodot b out num numstr h, generate_cstr_nodot b out' num numstr' h, hn]

/-- Every call of `generate_numbered_name` in `main` writes the candidate. -/
theorem generate_eq_candidate (filename out numstr : Buf) (n : Nat) :
    cstr (generate_numbered_name filename out (n : Int) numstr) = candidate filename n := by
  unfold candidate
  apply generate_cstr_congr
  rw [cstr_itoa_natCast, cstr_itoa_natCast]

/-! ## The run of `main` -/

theorem file_exists_eq_zero_iff (fs : FileSys) (b : Buf) :
    file_exists fs b = 0 ↔ present fs (cstr b) = false := by
  simp only [file_exists, present]
  by_cases h : fs.open_rdonly (cstr b) < 0
  · simp [h]
  · simp [h]

theorem create_and_report_cstr (fs : FileSys) (b : Buf) :
    create_and_report fs b = create_and_report fs (cstr b) := by
  simp only [create_and_report, msgCreateFailed, msgCreated, printf_s, cstr_idem]

/-- The loop from `counter = c` on when every numbered name up to 999 exists. -/
theorem main_loop_taken (fs : FileSys) (filename : Buf) (numstr0 : Nat → Buf) (k : Nat) :
    ∀ (c : Nat) (nf : Buf), c + k = 999 →
    (∀ m, c ≤ m → m ≤ 999 → present fs (candidate filename m) = true) →
    main_loop fs filename nf numstr0 c
      = ⟨takenEvents filename c (k + 1) ++ [Event.print msgExhausted], 1⟩ := by
  induction k with
  | zero =>
    intro c nf hc hall
    have hc' : c = 999 := by omega
    subst hc'
    rw [main_loop]
    have hp := hall 999 (le_refl _) (le_refl _)
    have hne : ¬ file_exists fs
        (generate_numbered_name filename nf ((999 : Nat) : Int) (numstr0 999)) = 0 := by
      rw [file_exists_eq_zero_iff, generate_eq_candidate, hp]; simp
    simp only [hne, if_false, generate_eq_candidate]
    simp [Run.after, takenEvents]
  | succ k ih =>
    intro c nf hc hall
    rw [main_loop]
    have hp := hall c (le_refl _) (by omega)
    have hne : ¬ file_exists fs
        (generate_numbered_name filename nf (c : Int) (numstr0 c)) = 0 := by
      rw [file_exists_eq_zero_iff, generate_eq_candidate, hp]; simp
    have hlt : ¬ c + 1 > 999 := by omega
    simp only [hne, if_false, generate_eq_candidate, hlt]
    rw [ih (c + 1) _ (by omega) (fun m h1 h2 => hall m (by omega) h2)]
    simp [Run.after, takenEvents]

/-- The loop from `counter = c` on when the numbered names `c .. c+k-1` exist
and the name `c+k` does not. -/
theorem main_loop_free (fs : FileSys) (filename : Buf) (numstr0 : Nat → Buf) (k : Nat) :
    ∀ (c : Nat) (nf : Buf), c + k ≤ 999 →
    (∀ m, c ≤ m → m < c + k → present fs (candidate filename m) = true) →
    present fs (candidate filename (c + k)) = false →
    main_loop fs filename nf numstr0 c
      = Run.after (takenEvents filename c k ++
          [Event.generate ((c + k : Nat) : Int), Event.query (candidate filename (c + k)) false])
          (create_and_report fs (candidate filename (c + k))) := by
  induction k with
  | zero =>
    intro c nf _ _ hfree
    rw [main_loop]
    have he : file_exists fs
        (generate_numbered_name filename nf (c : Int) (numstr0 c)) = 0 := by
      rw [file_exists_eq_zero_iff, generate_eq_candidate]; simpa using hfree
    simp only [he, if_true, generate_eq_candidate]
    rw [create_and_report_cstr, generate_eq_candidate]
    simp [takenEvents]
  | succ k ih =>
    intro c nf hc hall hfree
    rw [main_loop]
    have hp := hall c (le_refl _) (by omega)
    have hne : ¬ file_exists fs
        (generate_numbered_name filename nf (c : Int) (numstr0 c)) = 0 := by
      rw [file_exists_eq_zero_iff, generate_eq_candidate, hp]; simp
    have hlt : ¬ c + 1 > 999 := by omega
    simp only [hne, if_false, generate_eq_candidate, hlt]
    have hck : c + 1 + k = c + (k + 1) := by omega
    rw [ih (c + 1) _ (by omega) (fun m h1 h2 => hall m (by omega) (by omega))
      (by rw [hck]; exact hfree), hck]
    simp [Run.after, takenEvents]

/-- The three ways a run of the allocation can go. -/
theorem allocate_cases (fs : FileSys) (filename nf : Buf) (numstr0 : Nat → Buf) :
    (present fs (cstr filename) = false ∧
      allocate fs filename nf numstr0
        = Run.after [Event.query (cstr filename) false]
            (create_and_report fs (cstr filename))) ∨
    (present fs (cstr filename) = true ∧
      ∃ n0, 1 ≤ n0 ∧ n0 ≤ 999 ∧ present fs (candidate filename n0) = false ∧
        (∀ m, 1 ≤ m → m < n0 → present fs (candidate filename m) = true) ∧
        allocate fs filename nf numstr0
          = Run.after (Event.query (cstr filename) true :: takenEvents filename 1 (n0 - 1) ++
              [Event.generate (n0 : Int), Event.query (candidate filename n0) false])
              (create_and_report fs (candidate filename n0))) ∨
    (present fs (cstr filename) = true ∧
      (∀ m, 1 ≤ m → m ≤ 999 → present fs (candidate filename m) = true) ∧
      allocate fs filename nf numstr0
        = ⟨Event.query (cstr filename) true :: takenEvents filename 1 999 ++
            [Event.print msgExhausted], 1⟩) := by
  by_cases hd : present fs (cstr filename) = false
  · left
    refine ⟨hd, ?_⟩
    rw [allocate, if_pos ((file_exists_eq_zero_iff fs filename).mpr hd), create_and_report_cstr]
  · have hd' : present fs (cstr filename) = true := by simpa using hd
    have hne : ¬ file_exists fs filename = 0 := by
      rw [file_exists_eq_zero_iff]; exact hd
    right
    by_cases hex : ∃ n, 1 ≤ n ∧ n ≤ 999 ∧ present fs (candidate filename n) = false
    · left
      refine ⟨hd', Nat.find hex, (Nat.find_spec hex).1, (Nat.find_spec hex).2.1,
        (Nat.find_spec hex).2.2, ?_, ?_⟩
      · intro m h1 h2
        have := Nat.find_min hex h2
        by_contra hc
        exact this ⟨h1, by have := (Nat.find_spec hex).2.1; omega, by simpa using hc⟩
      · have h1 := (Nat.find_spec hex).1
        have hk : 1 + (Nat.find hex - 1) = Nat.find hex := by omega
        have hloop := main_loop_free fs filename numstr0 (Nat.find hex - 1) 1 nf
          (by rw [hk]; exact (Nat.find_spec hex).2.1)
          (fun m h1 h2 => by
            have := Nat.find_min hex (show m < Nat.find hex by omega)
            by_contra hc
            exact this ⟨h1, by have := (Nat.find_spec hex).2.1; omega, by simpa using hc⟩)
          (by rw [hk]; exact (Nat.find_spec hex).2.2)
        rw [hk] at hloop
        rw [allocate, if_neg hne, hloop]
        simp [Run.after]
    · right
      have hall : ∀ m, 1 ≤ m → m ≤ 999 → present fs (candidate filename m) = true := by
        intro m h1 h2
        by_contra hc
        exact hex ⟨m, h1, h2, by simpa using hc⟩
      refine ⟨hd', hall, ?_⟩
      rw [allocate, if_neg hne, main_loop_taken fs filename numstr0 998 1 nf rfl hall]
      simp [Run.after]

/-! ## Observations of a trace -/

theorem queries_append (a b : List Event) : queries (a ++ b) = queries a ++ queries b := by
  induction a with
  | nil => rfl
  | cons e a ih => cases e <;> simp [queries, ih]

theorem generated_append (a b : List Event) :
    generated (a ++ b) = generated a ++ generated b := by
  induction a with
  | nil => rfl
  | cons e a ih => cases e <;> simp [generated, ih]

theorem creates_append (a b : List Event) : creates (a ++ b) = creates a ++ creates b := by
  induction a with
  | nil => rfl
  | cons e a ih => cases e <;> simp [creates, ih]

theorem stdout_append (a b : List Event) : stdout (a ++ b) = stdout a ++ stdout b := by
  induction a with
  | nil => rfl
  | cons e a ih => cases e <;> simp [stdout, ih]

theorem queries_takenEvents (filename : Buf) (k : Nat) : ∀ c,
    queries (takenEvents filename c k)
      = (List.range' c k).map (fun m => (candidate filename m, true)) := by
  induction k with
  | zero => intro c; rfl
  | succ k ih => intro c; simp [takenEvents, queries, ih, List.range'_succ]

theorem generated_takenEvents (filename : Buf) (k : Nat) : ∀ c,
    generated (takenEvents filename c k) = (List.range' c k).map (fun m : Nat => (m : Int)) := by
  induction k with
  | zero => intro c; rfl
  | succ k ih => intro c; simp [takenEvents, generated, ih, List.range'_succ]

theorem creates_takenEvents (filename : Buf) (k : Nat) : ∀ c,
    creates (takenEvents filename c k) = [] := by
  induction k with
  | zero => intro c; rfl
  | succ k ih => intro c; simp [takenEvents, creates, ih]

theorem stdout_takenEvents (filename : Buf) (k : Nat) : ∀ c,
    stdout (takenEvents filename c k) = [] := by
  induction k with
  | zero => intro c; rfl
  | succ k ih => intro c; simp [takenEvents, stdout, ih]

/-- The creation step on a buffer that holds just a name. -/
theorem create_and_report_name (fs : FileSys) (name : List Nat) (h : cstr name = name) :
    create_and_report fs name =
      if fs.open_create name < 0 then
        ⟨[Event.create name false,
          Event.print (bytes "Error: couldn't create file " ++ name ++ [10])], 1⟩
      else
        ⟨[Event.create name true, Event.print (bytes "Created: " ++ name ++ [10])], 0⟩ := by
  simp only [create_and_report, msgCreateFailed, msgCreated, printf_s, h]

theorem cstr_candidate (filename : Buf) (n : Nat) :
    cstr (candidate filename n) = candidate filename n := cstr_idem _

/-- What is observed of a run that finds every name taken. -/
theorem obs_exhausted (filename : Buf) (d text : List Nat) (c k : Nat) :
    creates (Event.query d true :: takenEvents filename c k ++ [Event.print text]) = [] ∧
    stdout (Event.query d true :: takenEvents filename c k ++ [Event.print text]) = text ∧
    generated (Event.query d true :: takenEvents filename c k ++ [Event.print text])
      = (List.range' c k).map (fun m : Nat => (m : Int)) ∧
    queries (Event.query d true :: takenEvents filename c k ++ [Event.print text])
      = (d, true) :: (List.range' c k).map (fun m => (candidate filename m, true)) := by
  have h : Event.query d true :: takenEvents filename c k ++ [Event.print text]
      = [Event.query d true] ++ (takenEvents filename c k ++ [Event.print text]) := rfl
  rw [h]
  simp only [creates_append, stdout_append, generated_append, queries_append,
    creates_takenEvents, stdout_takenEvents, generated_takenEvents, queries_takenEvents]
  simp [creates, stdout, generated, queries]

/-- What is observed of a run that finds the numbered name `n` free. -/
theorem obs_found (filename : Buf) (d name text : List Nat) (ok : Bool) (c k : Nat) (n : Int) :
    creates (Event.query d true :: takenEvents filename c k ++
        [Event.generate n, Event.query name false] ++
        [Event.create name ok, Event.print text]) = [(name, ok)] ∧
    stdout (Event.query d true :: takenEvents filename c k ++
        [Event.generate n, Event.query name false] ++
        [Event.create name ok, Event.print text]) = text ∧
    generated (Event.query d true :: takenEvents filename c k ++
        [Event.generate n, Event.query name false] ++
        [Event.create name ok, Event.print text])
      = (List.range' c k).map (fun m : Nat => (m : Int)) ++ [n] ∧
    queries (Event.query d true :: takenEvents filename c k ++
        [Event.generate n, Event.query name false] ++
        [Event.create name ok, Event.print text])
      = (d, true) :: ((List.range' c k).map (fun m => (candidate filename m, true)) ++
          [(name, false)]) := by
  have h : Event.query d true :: takenEvents filename c k ++
        [Event.generate n, Event.query name false] ++
        [Event.create name ok, Event.print text]
      = [Event.query d true] ++ (takenEvents filename c k ++
        ([Event.generate n, Event.query name false] ++
        [Event.create name ok, Event.print text])) := by simp
  rw [h]
  simp only [creates_append, stdout_append, generated_append, queries_append,
    creates_takenEvents, stdout_takenEvents, generated_takenEvents, queries_takenEvents]
  simp [creates, stdout, generated, queries]

/-! ## The properties of the allocation -/

/-- C2: when the existence check of the desired name fails, `main` creates and
reports the desired name itself; `generate_numbered_name` is not called and the
check of the desired name is the only existence check of the run. -/
theorem main_desired_name_free (argc : Int) (argv : List Buf) (filename numbered_filename : Buf)
    (numstr0 : Nat → Buf) (fs : FileSys)
    (hfree : present fs (cstr (init_filename argc argv filename)) = false) :
    creates (main argc argv filename numbered_filename numstr0 fs).trace
      = [(cstr (init_filename argc argv filename),
          decide (0 ≤ fs.open_create (cstr (init_filename argc argv filename))))] ∧
    stdout (main argc argv filename numbered_filename numstr0 fs).trace
      = (if 0 ≤ fs.open_create (cstr (init_filename argc argv filename))
          then bytes "Created: " else bytes "Error: couldn't create file ")
        ++ cstr (init_filename argc argv filename) ++ [10] ∧
    generated (main argc argv filename numbered_filename numstr0 fs).trace = [] ∧
    queries (main argc argv filename numbered_filename numstr0 fs).trace
      = [(cstr (init_filename argc argv filename), false)] := by
  rcases allocate_cases fs (init_filename argc argv filename) numbered_filename numstr0 with
    ⟨_, hrun⟩ | ⟨hd, _⟩ | ⟨hd, _⟩
  · rw [main, hrun, create_and_report_name fs _ (cstr_idem _)]
    by_cases hc : fs.open_create (cstr (init_filename argc argv filename)) < 0
    · have hc' : ¬ 0 ≤ fs.open_create (cstr (init_filename argc argv filename)) := by omega
      simp [hc, hc', Run.after, creates, stdout, generated, queries]
    · have hc' : 0 ≤ fs.open_create (cstr (init_filename argc argv filename)) := by omega
      simp [hc, hc', Run.after, creates, stdout, generated, queries]
  · rw [hfree] at hd; exact absurd hd (by simp)
  · rw [hfree] at hd; exact absurd hd (by simp)

/-- C2, at a concrete input: `createfile notes.txt` on a file system without
files. -/
theorem main_desired_name_free_witness :
    present ⟨fun _ => -1, fun _ => 3⟩
      (cstr (init_filename 2 [bytes "createfile", bytes "notes.txt"] (List.replicate 128 7)))
      = false ∧
    generated (main 2 [bytes "createfile", bytes "notes.txt"] (List.replicate 128 7)
      (List.replicate 128 7) (fun _ => List.replicate 16 7) ⟨fun _ => -1, fun _ => 3⟩).trace
      = [] :=
  ⟨by decide,
    (main_desired_name_free 2 [bytes "createfile", bytes "notes.txt"] (List.replicate 128 7)
      (List.replicate 128 7) (fun _ => List.replicate 16 7) ⟨fun _ => -1, fun _ => 3⟩
      (by decide)).2.2.1⟩

/-- C3: when the desired name and all the numbered names 1..999 exist, `main`
creates no file and ends with the report of exhaustion and status 1, after
exactly 999 calls of `generate_numbered_name`, for `num` = 1, ..., 999, and
exactly 999 existence checks of numbered names, one for each of them. -/
theorem main_exhausted (argc : Int) (argv : List Buf) (filename numbered_filename : Buf)
    (numstr0 : Nat → Buf) (fs : FileSys)
    (hd : present fs (cstr (init_filename argc argv filename)) = true)
    (hall : ∀ n, 1 ≤ n → n ≤ 999 →
      present fs (candidate (init_filename argc argv filename) n) = true) :
    creates (main argc argv filename numbered_filename numstr0 fs).trace = [] ∧
    (main argc argv filename numbered_filename numstr0 fs).status = 1 ∧
    stdout (main argc argv filename numbered_filename numstr0 fs).trace = msgExhausted ∧
    generated (main argc argv filename numbered_filename numstr0 fs).trace
      = (List.range' 1 999).map (fun n : Nat => (n : Int)) ∧
    (generated (main argc argv filename numbered_filename numstr0 fs).trace).length = 999 ∧
    queries (main argc argv filename numbered_filename numstr0 fs).trace
      = (cstr (init_filename argc argv filename), true) ::
        (List.range' 1 999).map (fun n => (candidate (init_filename argc argv filename) n, true)) ∧
    ((queries (main argc argv filename numbered_filename numstr0 fs).trace).tail).length
      = 999 := by
  rcases allocate_cases fs (init_filename argc argv filename) numbered_filename numstr0 with
    ⟨hd', _⟩ | ⟨_, n0, h1, h999, hfree, _⟩ | ⟨_, _, hrun⟩
  · rw [hd] at hd'; exact absurd hd' (by simp)
  · rw [hall n0 h1 h999] at hfree; exact absurd hfree (by simp)
  · obtain ⟨h1, h2, h3, h4⟩ := obs_exhausted (init_filename argc argv filename)
      (cstr (init_filename argc argv filename)) msgExhausted 1 999
    rw [main, hrun]
    refine ⟨h1, rfl, h2, h3, ?_, h4, ?_⟩
    · simp only [h3, List.length_map, List.length_range']
    · simp only [h4, List.tail_cons, List.length_map, List.length_range']

/-- C3, at a concrete input: `createfile x` on a file system where every name
exists. -/
theorem main_exhausted_witness :
    present ⟨fun _ => 3, fun _ => 3⟩
      (cstr (init_filename 2 [bytes "createfile", bytes "x"] (List.replicate 128 0))) = true ∧
    (main 2 [bytes "createfile", bytes "x"] (List.replicate 128 0) (List.replicate 128 0)
      (fun _ => List.replicate 16 0) ⟨fun _ => 3, fun _ => 3⟩).status = 1 :=
  ⟨by decide,
    (main_exhausted 2 [bytes "createfile", bytes "x"] (List.replicate 128 0)
      (List.replicate 128 0) (fun _ => List.replicate 16 0) ⟨fun _ => 3, fun _ => 3⟩
      (by decide) (fun _ _ _ => by simp [present])).2.1⟩

/-- The candidate for a name with a dot, split at its last dot. -/
theorem candidate_dot (filename : Buf) (n : Nat) (u v : List Nat)
    (h : cstr filename = u ++ 46 :: v) (hv : 46 ∉ v) :
    candidate filename n = u ++ [40] ++ decimal n ++ [41] ++ 46 :: v := by
  rw [candidate, generate_cstr_dot filename [] n [] u v h hv, cstr_itoa_natCast]

/-- The candidate for a name without a dot. -/
theorem candidate_nodot (filename : Buf) (n : Nat) (h : 46 ∉ cstr filename) :
    candidate filename n = cstr filename ++ [40] ++ decimal n ++ [41] := by
  rw [candidate, generate_cstr_nodot filename [] n [] h, cstr_itoa_natCast]


/-- C1: when the desired name exists and some numbered name with `n` in 1..999
does not, `main` passes to `open(.., O_CREATE | O_RDWR)` and reports the
candidate `generate_numbered_name(desired, n0)` for the least `n0` in 1..999
whose candidate does not exist; every candidate with a smaller `n` exists. -/
theorem main_chooses_first_free (argc : Int) (argv : List Buf)
    (filename numbered_filename : Buf) (numstr0 : Nat → Buf) (fs : FileSys)
    (hd : present fs (cstr (init_filename argc argv filename)) = true)
    (hex : ∃ n, 1 ≤ n ∧ n ≤ 999 ∧
      present fs (candidate (init_filename argc argv filename) n) = false) :
    ∃ n0, 1 ≤ n0 ∧ n0 ≤ 999 ∧
      present fs (candidate (init_filename argc argv filename) n0) = false ∧
      (∀ m, 1 ≤ m → m < n0 →
        present fs (candidate (init_filename argc argv filename) m) = true) ∧
      creates (main argc argv filename numbered_filename numstr0 fs).trace
        = [(candidate (init_filename argc argv filename) n0,
            decide (0 ≤ fs.open_create (candidate (init_filename argc argv filename) n0)))] ∧
      stdout (main argc argv filename numbered_filename numstr0 fs).trace
        = (if 0 ≤ fs.open_create (candidate (init_filename argc argv filename) n0)
            then bytes "Created: " else bytes "Error: couldn't create file ")
          ++ candidate (init_filename argc argv filename) n0 ++ [10] := by
  rcases allocate_cases fs (init_filename argc argv filename) numbered_filename numstr0 with
    ⟨hd', _⟩ | ⟨_, n0, h1, h999, hfree, hmin, hrun⟩ | ⟨_, hall, _⟩
  · rw [hd] at hd'; exact absurd hd' (by simp)
  · refine ⟨n0, h1, h999, hfree, hmin, ?_⟩
    rw [main, hrun, create_and_report_name fs _ (cstr_candidate _ _)]
    by_cases hc : fs.open_create (candidate (init_filename argc argv filename) n0) < 0
    · have hc' : ¬ 0 ≤ fs.open_create (candidate (init_filename argc argv filename) n0) := by
        omega
      obtain ⟨o1, o2, _, _⟩ := obs_found (init_filename argc argv filename)
        (cstr (init_filename argc argv filename))
        (candidate (init_filename argc argv filename) n0)
        (bytes "Error: couldn't create file " ++
          candidate (init_filename argc argv filename) n0 ++ [10]) false 1 (n0 - 1) (n0 : Int)
      simp only [hc, hc', if_true, if_false, Run.after, decide_False]
      exact ⟨o1, o2⟩
    · have hc' : 0 ≤ fs.open_create (candidate (init_filename argc argv filename) n0) := by
        omega
      obtain ⟨o1, o2, _, _⟩ := obs_found (init_filename argc argv filename)
        (cstr (init_filename argc argv filename))
        (candidate (init_filename argc argv filename) n0)
        (bytes "Created: " ++
          candidate (init_filename argc argv filename) n0 ++ [10]) true 1 (n0 - 1) (n0 : Int)
      simp only [hc, hc', if_true, if_false, Run.after, decide_True]
      exact ⟨o1, o2⟩
  · obtain ⟨n, h1, h999, hfree⟩ := hex
    rw [hall n h1 h999] at hfree; exact absurd hfree (by simp)

set_option maxRecDepth 100000 in
/-- C1, at a concrete input: `createfile untitled.txt` when `untitled.txt` is
the only file; the file created is `untitled(1).txt`. -/
theorem main_chooses_first_free_witness :
    creates (main 2 [bytes "createfile", bytes "untitled.txt"] (List.replicate 128 7)
      (List.replicate 128 7) (fun _ => List.replicate 16 7)
      ⟨fun name => if name = bytes "untitled.txt" then 3 else -1, fun _ => 3⟩).trace
      = [(bytes "untitled(1).txt", true)] := by
  have hc1 : candidate (init_filename 2 [bytes "createfile", bytes "untitled.txt"]
      (List.replicate 128 7)) 1 = bytes "untitled(1).txt" := by
    rw [candidate_dot _ 1 (bytes "untitled") (bytes "txt") (by decide) (by decide)]
    simp [decimal]
    decide
  have hfree1 : present ⟨fun name => if name = bytes "untitled.txt" then 3 else -1, fun _ => 3⟩
      (candidate (init_filename 2 [bytes "createfile", bytes "untitled.txt"]
        (List.replicate 128 7)) 1) = false := by
    rw [hc1]; decide
  obtain ⟨n0, h1, _, _, hmin, hcr, _⟩ :=
    main_chooses_first_free 2 [bytes "createfile", bytes "untitled.txt"] (List.replicate 128 7)
      (List.replicate 128 7) (fun _ => List.replicate 16 7)
      ⟨fun name => if name = bytes "untitled.txt" then 3 else -1, fun _ => 3⟩
      (by decide) ⟨1, le_refl 1, by norm_num, hfree1⟩
  have hn0 : n0 = 1 := by
    by_contra hne
    have := hmin 1 (le_refl 1) (by omega)
    rw [hfree1] at this
    exact absurd this (by simp)
  subst hn0
  rw [hcr, hc1]
  simp

/-! ## The numeral and the numbered name -/

theorem decimalValue_digits (l : List Nat) :
    List.foldr (fun c acc => 10 * acc + (c - 48)) 0 (l.map (fun d => d + 48))
      = Nat.ofDigits 10 l := by
  induction l with
  | nil => rfl
  | cons d l ih =>
    simp only [List.map_cons, List.foldr_cons, ih, Nat.ofDigits_cons]
    simp
    omega

/-- Reading the numeral of `n` gives `n` back. -/
theorem decimalValue_decimal (n : Nat) : decimalValue (decimal n) = n := by
  unfold decimal decimalValue
  split
  · next h => subst h; rfl
  · rw [List.foldl_reverse, decimalValue_digits, Nat.ofDigits_digits]

/-- The numeral of a positive number does not start with the digit 0. -/
theorem decimal_head_ne_zero (n : Nat) (hn : n ≠ 0) : (decimal n).head? ≠ some 48 := by
  unfold decimal
  rw [if_neg hn, List.head?_reverse, List.getLast?_map]
  have hne : Nat.digits 10 n ≠ [] := Nat.digits_ne_nil_iff_ne_zero.mpr hn
  rw [List.getLast?_eq_getLast _ hne]
  have := Nat.getLast_digit_ne_zero 10 hn
  simp only [Option.map_some', ne_eq, Option.some.injEq]
  omega

theorem decimal_digits_only (n : Nat) : ∀ c ∈ decimal n, 48 ≤ c ∧ c ≤ 57 := by
  intro c hc
  unfold decimal at hc
  split at hc
  · simp at hc; omega
  · exact decimal_digit_chars n c (by simpa using hc)

theorem decimal_ne_nil (n : Nat) : decimal n ≠ [] := by
  unfold decimal
  split
  · simp
  · next h =>
    have hne : Nat.digits 10 n ≠ [] := Nat.digits_ne_nil_iff_ne_zero.mpr h
    simpa using hne

/-- C5: for a non-negative `n`, which covers 0 .. 2^31-1, `itoa(n, str)` writes
the minimal decimal numeral of `n`: the string `0` when `n = 0`, and otherwise a
non-empty string of digits whose first character is not `0` and whose value as
a base-10 numeral is `n`. -/
theorem itoa_minimal_decimal (n : Int) (hn : 0 ≤ n) (str : Buf) :
    (n = 0 → cstr (itoa n str) = bytes "0") ∧
    (n ≠ 0 →
      (∀ c ∈ cstr (itoa n str), 48 ≤ c ∧ c ≤ 57) ∧
      (cstr (itoa n str)).head? ≠ some 48 ∧
      cstr (itoa n str) ≠ [] ∧
      ((decimalValue (cstr (itoa n str)) : Nat) : Int) = n) := by
  obtain ⟨k, rfl⟩ := Int.eq_ofNat_of_zero_le hn
  rw [cstr_itoa_natCast]
  refine ⟨fun h => ?_, fun h => ⟨decimal_digits_only k, ?_, decimal_ne_nil k, ?_⟩⟩
  · have hk : k = 0 := by exact_mod_cast h
    subst hk
    decide
  · exact decimal_head_ne_zero k (by exact_mod_cast h)
  · rw [decimalValue_decimal]

/-- C5, at a concrete input: `itoa(2147483647, str)` on a buffer of 16 bytes. -/
theorem itoa_minimal_decimal_witness :
    (decimalValue (cstr (itoa 2147483647 (List.replicate 16 7))) : Int) = 2147483647 :=
  ((itoa_minimal_decimal 2147483647 (by decide) (List.replicate 16 7)).2 (by decide)).2.2.2

/-- C4: for a NUL-free base name, held by a buffer with its terminator, and
`n ≥ 1`, `generate_numbered_name` writes `stem ++ "(" ++ decimal n ++ ")" ++
extension`: when the base name has a dot, `stem` is the text before its last dot
and the extension the text from that dot on; when it has none, the stem is the
whole base name and the extension is empty. -/
theorem generate_numbered_name_spec (base rest out numstr : List Nat) (n : Int)
    (hnul : 0 ∉ base) (hn : 1 ≤ n) :
    (∀ stem ext, base = stem ++ 46 :: ext → 46 ∉ ext →
      cstr (generate_numbered_name (base ++ 0 :: rest) out n numstr)
        = stem ++ bytes "(" ++ decimal n.toNat ++ bytes ")" ++ 46 :: ext) ∧
    (46 ∉ base →
      cstr (generate_numbered_name (base ++ 0 :: rest) out n numstr)
        = base ++ bytes "(" ++ decimal n.toNat ++ bytes ")") := by
  have hb : cstr (base ++ 0 :: rest) = base :=
    cstr_append_nul base rest (fun c hc h0 => hnul (h0 ▸ hc))
  have hl : bytes "(" = [40] := by decide
  have hr : bytes ")" = [41] := by decide
  obtain ⟨k, rfl⟩ := Int.eq_ofNat_of_zero_le (by omega : 0 ≤ n)
  rw [hl, hr, Int.toNat_ofNat]
  refine ⟨fun stem ext hsplit hext => ?_, fun hno => ?_⟩
  · rw [generate_cstr_dot _ out k numstr stem ext (by rw [hb, hsplit]) hext, cstr_itoa_natCast]
  · rw [generate_cstr_nodot _ out k numstr (by rw [hb]; exact hno), cstr_itoa_natCast, hb]

/-- C4, at concrete inputs: `a.tar.gz` with 42 and `README` with 1. -/
theorem generate_numbered_name_spec_witness :
    cstr (generate_numbered_name (bytes "a.tar.gz" ++ 0 :: List.replicate 119 7)
      (List.replicate 128 7) 42 (List.replicate 16 7)) = bytes "a.tar(42).gz" ∧
    cstr (generate_numbered_name (bytes "README" ++ 0 :: List.replicate 121 7)
      (List.replicate 128 7) 1 (List.replicate 16 7)) = bytes "README(1)" := by
  have h42 : decimal (42 : Int).toNat = bytes "42" := by simp [decimal]; decide
  have h1 : decimal (1 : Int).toNat = bytes "1" := by simp [decimal]; decide
  refine ⟨?_, ?_⟩
  · rw [(generate_numbered_name_spec (bytes "a.tar.gz") (List.replicate 119 7)
      (List.replicate 128 7) (List.replicate 16 7) 42 (by decide) (by decide)).1
      (bytes "a.tar") (bytes "gz") (by decide) (by decide), h42]
    decide
  · rw [(generate_numbered_name_spec (bytes "README") (List.replicate 121 7)
      (List.replicate 128 7) (List.replicate 16 7) 1 (by decide) (by decide)).2
      (by decide), h1]
    decide

/-- C6: the stem and the extension that `generate_numbered_name` copies around
the inserted number make up the base name: the name written is
`pre ++ "(" ++ decimal n ++ ")" ++ post` with `pre ++ post` the base name, the
same `pre` and `post` for every `n`. -/
theorem generate_numbered_name_reconstructs (base_name : Buf) :
    ∃ pre post, pre ++ post = cstr base_name ∧
      ∀ (out numstr : Buf) (n : Nat),
        cstr (generate_numbered_name base_name out (n : Int) numstr)
          = pre ++ bytes "(" ++ decimal n ++ bytes ")" ++ post := by
  have hl : bytes "(" = [40] := by decide
  have hr : bytes ")" = [41] := by decide
  rw [hl, hr]
  by_cases h : 46 ∈ cstr base_name
  · obtain ⟨u, v, huv, hv⟩ := exists_last_dot _ h
    refine ⟨u, 46 :: v, huv.symm, fun out numstr n => ?_⟩
    rw [generate_cstr_dot base_name out n numstr u v huv hv, cstr_itoa_natCast]
  · refine ⟨cstr base_name, [], by simp, fun out numstr n => ?_⟩
    rw [generate_cstr_nodot base_name out n numstr h, cstr_itoa_natCast]
    simp

/-! ## Outcome and report of a run -/

/-- A run either creates, or fails to create, one name it found free, which is
the desired name or a candidate, and reports on that name; or it finds the
desired name and the 999 candidates taken and reports exhaustion. -/
theorem main_outcome (argc : Int) (argv : List Buf) (filename numbered_filename : Buf)
    (numstr0 : Nat → Buf) (fs : FileSys) :
    (∃ name, present fs name = false ∧
      (name = cstr (init_filename argc argv filename) ∨
        ∃ n, 1 ≤ n ∧ n ≤ 999 ∧ name = candidate (init_filename argc argv filename) n) ∧
      creates (main argc argv filename numbered_filename numstr0 fs).trace
        = [(name, decide (0 ≤ fs.open_create name))] ∧
      stdout (main argc argv filename numbered_filename numstr0 fs).trace
        = (if 0 ≤ fs.open_create name
            then bytes "Created: " else bytes "Error: couldn't create file ")
          ++ name ++ [10] ∧
      (main argc argv filename numbered_filename numstr0 fs).status
        = (if 0 ≤ fs.open_create name then 0 else 1)) ∨
    (present fs (cstr (init_filename argc argv filename)) = true ∧
      (∀ n, 1 ≤ n → n ≤ 999 →
        present fs (candidate (init_filename argc argv filename) n) = true) ∧
      creates (main argc argv filename numbered_filename numstr0 fs).trace = [] ∧
      stdout (main argc argv filename numbered_filename numstr0 fs).trace = msgExhausted ∧
      (main argc argv filename numbered_filename numstr0 fs).status = 1) := by
  rcases allocate_cases fs (init_filename argc argv filename) numbered_filename numstr0 with
    ⟨hd, hrun⟩ | ⟨_, n0, h1, h999, hfree, _, hrun⟩ | ⟨hd, hall, hrun⟩
  · left
    refine ⟨cstr (init_filename argc argv filename), hd, Or.inl rfl, ?_⟩
    rw [main, hrun, create_and_report_name fs _ (cstr_idem _)]
    by_cases hc : fs.open_create (cstr (init_filename argc argv filename)) < 0
    · have hc' : ¬ 0 ≤ fs.open_create (cstr (init_filename argc argv filename)) := by omega
      simp [hc, hc', Run.after, creates, stdout]
    · have hc' : 0 ≤ fs.open_create (cstr (init_filename argc argv filename)) := by omega
      simp [hc, hc', Run.after, creates, stdout]
  · left
    refine ⟨candidate (init_filename argc argv filename) n0, hfree, Or.inr ⟨n0, h1, h999, rfl⟩, ?_⟩
    rw [main, hrun, create_and_report_name fs _ (cstr_candidate _ _)]
    by_cases hc : fs.open_create (candidate (init_filename argc argv filename) n0) < 0
    · have hc' : ¬ 0 ≤ fs.open_create (candidate (init_filename argc argv filename) n0) := by
        omega
      obtain ⟨o1, o2, _, _⟩ := obs_found (init_filename argc argv filename)
        (cstr (init_filename argc argv filename))
        (candidate (init_filename argc argv filename) n0)
        (bytes "Error: couldn't create file " ++
          candidate (init_filename argc argv filename) n0 ++ [10]) false 1 (n0 - 1) (n0 : Int)
      simp only [hc, hc', if_true, if_false, Run.after, decide_False]
      exact ⟨o1, o2, trivial⟩
    · have hc' : 0 ≤ fs.open_create (candidate (init_filename argc argv filename) n0) := by
        omega
      obtain ⟨o1, o2, _, _⟩ := obs_found (init_filename argc argv filename)
        (cstr (init_filename argc argv filename))
        (candidate (init_filename argc argv filename) n0)
        (bytes "Created: " ++
          candidate (init_filename argc argv filename) n0 ++ [10]) true 1 (n0 - 1) (n0 : Int)
      simp only [hc, hc', if_true, if_false, Run.after, decide_True]
      exact ⟨o1, o2, trivial⟩
  · right
    obtain ⟨o1, o2, _, _⟩ := obs_exhausted (init_filename argc argv filename)
      (cstr (init_filename argc argv filename)) msgExhausted 1 999
    rw [main, hrun]
    exact ⟨hd, hall, o1, o2, rfl⟩

/-- C8: in every run, if `open(name, O_CREATE | O_RDWR)` succeeds, it is the
only creation of the run, the program prints `Created: `, exactly that name and
a newline, and exits with status 0; if it fails, or if no creation is attempted,
which happens exactly when the desired name and all 999 candidates exist, the
program prints a text that starts with `Error: ` and exits with status 1. -/
theorem main_report (argc : Int) (argv : List Buf) (filename numbered_filename : Buf)
    (numstr0 : Nat → Buf) (fs : FileSys) :
    (∀ name, (name, true) ∈ creates (main argc argv filename numbered_filename numstr0 fs).trace →
      creates (main argc argv filename numbered_filename numstr0 fs).trace = [(name, true)] ∧
      stdout (main argc argv filename numbered_filename numstr0 fs).trace
        = bytes "Created: " ++ name ++ [10] ∧
      (main argc argv filename numbered_filename numstr0 fs).status = 0) ∧
    (∀ name, (name, false) ∈ creates (main argc argv filename numbered_filename numstr0 fs).trace →
      bytes "Error: " <+: stdout (main argc argv filename numbered_filename numstr0 fs).trace ∧
      (main argc argv filename numbered_filename numstr0 fs).status = 1) ∧
    (creates (main argc argv filename numbered_filename numstr0 fs).trace = [] →
      bytes "Error: " <+: stdout (main argc argv filename numbered_filename numstr0 fs).trace ∧
      (main argc argv filename numbered_filename numstr0 fs).status = 1) ∧
    (creates (main argc argv filename numbered_filename numstr0 fs).trace = [] ↔
      (present fs (cstr (init_filename argc argv filename)) = true ∧
        ∀ n, 1 ≤ n → n ≤ 999 →
          present fs (candidate (init_filename argc argv filename) n) = true)) := by
  rcases main_outcome argc argv filename numbered_filename numstr0 fs with
    ⟨name, hfree, hwhich, hc, ho, hs⟩ | ⟨hd, hall, hc, ho, hs⟩
  · refine ⟨fun nm hnm => ?_, fun nm hnm => ?_, fun hnil => ?_, ⟨fun hnil => ?_, fun hex => ?_⟩⟩
    · rw [hc] at hnm
      simp only [List.mem_singleton, Prod.mk.injEq] at hnm
      obtain ⟨rfl, hok⟩ := hnm
      have hpos : 0 ≤ fs.open_create nm := by simpa using hok.symm
      rw [hc, ho, hs]
      simp [hpos]
    · rw [hc] at hnm
      simp only [List.mem_singleton, Prod.mk.injEq] at hnm
      obtain ⟨rfl, hok⟩ := hnm
      have hneg : ¬ 0 ≤ fs.open_create nm := by simpa using hok.symm
      rw [ho, hs]
      have hsplit : bytes "Error: couldn't create file "
          = bytes "Error: " ++ bytes "couldn't create file " := by decide
      simp only [hneg, if_false, and_true, hsplit]
      exact ⟨bytes "couldn't create file " ++ (nm ++ [10]), by simp⟩
    · rw [hc] at hnil; exact absurd hnil (by simp)
    · rw [hc] at hnil; exact absurd hnil (by simp)
    · rcases hwhich with rfl | ⟨n, h1, h999, rfl⟩
      · rw [hex.1] at hfree; exact absurd hfree (by simp)
      · rw [hex.2 n h1 h999] at hfree; exact absurd hfree (by simp)
  · refine ⟨fun nm hnm => ?_, fun nm hnm => ?_, fun _ => ?_, ⟨fun _ => ⟨hd, hall⟩, fun _ => hc⟩⟩
    · rw [hc] at hnm; exact absurd hnm (by simp)
    · rw [hc] at hnm; exact absurd hnm (by simp)
    · rw [ho, hs]
      exact ⟨by decide, rfl⟩

set_option maxRecDepth 100000 in
/-- C8, at a concrete input: `createfile notes.txt` on a file system without
files prints `Created: notes.txt` and exits with status 0. -/
theorem main_report_witness :
    stdout (main 2 [bytes "createfile", bytes "notes.txt"] (List.replicate 128 7)
      (List.replicate 128 7) (fun _ => List.replicate 16 7) ⟨fun _ => -1, fun _ => 3⟩).trace
      = bytes "Created: " ++ bytes "notes.txt" ++ [10] ∧
    (main 2 [bytes "createfile", bytes "notes.txt"] (List.replicate 128 7)
      (List.replicate 128 7) (fun _ => List.replicate 16 7) ⟨fun _ => -1, fun _ => 3⟩).status
      = 0 :=
  ((main_report 2 [bytes "createfile", bytes "notes.txt"] (List.replicate 128 7)
      (List.replicate 128 7) (fun _ => List.replicate 16 7) ⟨fun _ => -1, fun _ => 3⟩).1
    (bytes "notes.txt") (by decide)).2

/-! ## The default name -/

/-- The buffer after `memmove(dst, src, n)` when `src` has at least `n` bytes. -/
theorem memmove_eq (n : Nat) : ∀ (src dst : List Nat), n ≤ src.length →
    memmove dst src n = src.take n ++ dst.drop n := by
  induction n with
  | zero => intro src dst _; simp [memmove]
  | succ n ih =>
    intro src dst hn
    have : memmove dst src (n + 1) = bufWrite (memmove dst src n) n (bufRead src n) := by
      simp [memmove, List.range_succ]
    rw [this, ih src dst (by omega), bufWrite_append _ _ _ _ (by simp; omega),
      bufRead_of_lt src n (by omega)]
    rw [List.take_succ, List.getElem?_eq_getElem (by omega)]
    simp only [Option.toList_some, List.append_assoc, List.singleton_append, List.drop_drop,
      Nat.add_comm 1 n]

/-- With `argc = 1` the name in `filename` is `untitled.txt` followed by the
bytes that the buffer held from index 12 up to its first NUL. -/
theorem init_filename_default (argv : List Buf) (filename : Buf) :
    cstr (init_filename 1 argv filename)
      = bytes "untitled.txt" ++ cstr (filename.drop 12) := by
  have h12 := memmove_eq 12 (bytes "untitled.txt" ++ [0]) filename (by decide)
  have ht : List.take 12 (bytes "untitled.txt" ++ [0]) = bytes "untitled.txt" := by decide
  rw [ht] at h12
  simp only [init_filename, if_true, h12, cstr]
  rw [List.takeWhile_append_of_pos (by decide)]

set_option maxRecDepth 100000 in
/-- C7, at an input where the claim fails: `createfile` without argument, the
buffer `filename` holding the byte `X` at index 12 and NUL elsewhere when `main`
is entered, on a file system without files.  The name checked, created and
reported is `untitled.txtX`, not `untitled.txt`. -/
theorem default_name_unterminated :
    cstr (init_filename 1 [bytes "createfile"]
      (List.replicate 12 0 ++ 88 :: List.replicate 115 0)) = bytes "untitled.txtX" ∧
    (main 1 [bytes "createfile"] (List.replicate 12 0 ++ 88 :: List.replicate 115 0)
      (List.replicate 128 0) (fun _ => List.replicate 16 0) ⟨fun _ => -1, fun _ => 3⟩).trace
      = [Event.query (bytes "untitled.txtX") false, Event.create (bytes "untitled.txtX") true,
          Event.print (bytes "Created: untitled.txtX\n")] := by
  constructor <;> decide

/-! ## The two error reports -/

set_option maxRecDepth 100000 in
/-- C9 fails as stated: `createfile untitled.txt` on a file system where every
name exists ends in exhaustion with status 1, and the text printed contains
neither the desired name nor the last name attempted. -/
theorem exhausted_report_omits_name :
    creates (main 2 [bytes "createfile", bytes "untitled.txt"] (List.replicate 128 0)
      (List.replicate 128 0) (fun _ => List.replicate 16 0) ⟨fun _ => 3, fun _ => 3⟩).trace
      = [] ∧
    (main 2 [bytes "createfile", bytes "untitled.txt"] (List.replicate 128 0)
      (List.replicate 128 0) (fun _ => List.replicate 16 0) ⟨fun _ => 3, fun _ => 3⟩).status
      = 1 ∧
    cstr (init_filename 2 [bytes "createfile", bytes "untitled.txt"] (List.replicate 128 0))
      = bytes "untitled.txt" ∧
    ¬ (bytes "untitled.txt" <:+:
      stdout (main 2 [bytes "createfile", bytes "untitled.txt"] (List.replicate 128 0)
        (List.replicate 128 0) (fun _ => List.replicate 16 0) ⟨fun _ => 3, fun _ => 3⟩).trace) ∧
    candidate (init_filename 2 [bytes "createfile", bytes "untitled.txt"]
      (List.replicate 128 0)) 999 = bytes "untitled(999).txt" ∧
    ¬ (bytes "untitled(999).txt" <:+:
      stdout (main 2 [bytes "createfile", bytes "untitled.txt"] (List.replicate 128 0)
        (List.replicate 128 0) (fun _ => List.replicate 16 0)
        ⟨fun _ => 3, fun _ => 3⟩).trace) := by
  have hc999 : candidate (init_filename 2 [bytes "createfile", bytes "untitled.txt"]
      (List.replicate 128 0)) 999 = bytes "untitled(999).txt" := by
    rw [candidate_dot _ 999 (bytes "untitled") (bytes "txt") (by decide) (by decide)]
    simp [decimal]
    decide
  rcases main_outcome 2 [bytes "createfile", bytes "untitled.txt"] (List.replicate 128 0)
      (List.replicate 128 0) (fun _ => List.replicate 16 0) ⟨fun _ => 3, fun _ => 3⟩ with
    ⟨name, hfree, _⟩ | ⟨_, _, hc, ho, hs⟩
  · simp [present] at hfree
  · rw [hc, ho, hs]
    exact ⟨rfl, rfl, by decide, by decide, hc999, by decide⟩

/-- C9, amended: when the creation fails, the program prints
`Error: couldn't create file `, the name passed to `open` and a newline, so the
text contains the attempted name, and exits with status 1; when the desired name
and all 999 candidates exist, it prints the fixed text
`Error: too many files with similar names` and a newline, and exits with
status 1. -/
theorem main_error_report (argc : Int) (argv : List Buf) (filename numbered_filename : Buf)
    (numstr0 : Nat → Buf) (fs : FileSys) :
    (∀ name, (name, false) ∈ creates (main argc argv filename numbered_filename numstr0 fs).trace →
      stdout (main argc argv filename numbered_filename numstr0 fs).trace
        = bytes "Error: couldn't create file " ++ name ++ [10] ∧
      name <:+: stdout (main argc argv filename numbered_filename numstr0 fs).trace ∧
      (main argc argv filename numbered_filename numstr0 fs).status = 1) ∧
    ((present fs (cstr (init_filename argc argv filename)) = true ∧
        ∀ n, 1 ≤ n → n ≤ 999 →
          present fs (candidate (init_filename argc argv filename) n) = true) →
      stdout (main argc argv filename numbered_filename numstr0 fs).trace
        = bytes "Error: too many files with similar names" ++ [10] ∧
      (main argc argv filename numbered_filename numstr0 fs).status = 1) := by
  rcases main_outcome argc argv filename numbered_filename numstr0 fs with
    ⟨name, hfree, hwhich, hc, ho, hs⟩ | ⟨hd, hall, hc, ho, hs⟩
  · refine ⟨fun nm hnm => ?_, fun hex => ?_⟩
    · rw [hc] at hnm
      simp only [List.mem_singleton, Prod.mk.injEq] at hnm
      obtain ⟨rfl, hok⟩ := hnm
      have hneg : ¬ 0 ≤ fs.open_create nm := by simpa using hok.symm
      rw [ho, hs]
      simp only [hneg, if_false, true_and, and_true]
      exact ⟨bytes "Error: couldn't create file ", [10], rfl⟩
    · rcases hwhich with rfl | ⟨n, h1, h999, rfl⟩
      · rw [hex.1] at hfree; exact absurd hfree (by simp)
      · rw [hex.2 n h1 h999] at hfree; exact absurd hfree (by simp)
  · refine ⟨fun nm hnm => ?_, fun _ => ⟨ho, hs⟩⟩
    rw [hc] at hnm; exact absurd hnm (by simp)

set_option maxRecDepth 100000 in
/-- C9 amended, at a concrete input: `createfile notes.txt` when no file exists
and the creation is refused. -/
theorem main_error_report_witness :
    stdout (main 2 [bytes "createfile", bytes "notes.txt"] (List.replicate 128 7)
      (List.replicate 128 7) (fun _ => List.replicate 16 7) ⟨fun _ => -1, fun _ => -1⟩).trace
      = bytes "Error: couldn't create file " ++ bytes "notes.txt" ++ [10] ∧
    bytes "notes.txt" <:+:
      stdout (main 2 [bytes "createfile", bytes "notes.txt"] (List.replicate 128 7)
        (List.replicate 128 7) (fun _ => List.replicate 16 7)
        ⟨fun _ => -1, fun _ => -1⟩).trace ∧
    (main 2 [bytes "createfile", bytes "notes.txt"] (List.replicate 128 7)
      (List.replicate 128 7) (fun _ => List.replicate 16 7) ⟨fun _ => -1, fun _ => -1⟩).status
      = 1 :=
  (main_error_report 2 [bytes "createfile", bytes "notes.txt"] (List.replicate 128 7)
      (List.replicate 128 7) (fun _ => List.replicate 16 7) ⟨fun _ => -1, fun _ => -1⟩).1
    (bytes "notes.txt") (by decide)

/-! ## The order of the existence checks -/

theorem decimal_injective (n m : Nat) (h : decimal n = decimal m) : n = m := by
  rw [← decimalValue_decimal n, ← decimalValue_decimal m, h]

/-- Distinct numbers give distinct candidates. -/
theorem candidate_injective (filename : Buf) (n m : Nat)
    (h : candidate filename n = candidate filename m) : n = m := by
  apply decimal_injective
  by_cases hdot : 46 ∈ cstr filename
  · obtain ⟨u, v, huv, hv⟩ := exists_last_dot _ hdot
    rw [candidate_dot filename n u v huv hv, candidate_dot filename m u v huv hv] at h
    simp only [List.append_assoc, List.append_cancel_left_eq] at h
    exact List.append_cancel_right h
  · rw [candidate_nodot filename n hdot, candidate_nodot filename m hdot] at h
    simp only [List.append_assoc, List.append_cancel_left_eq] at h
    exact List.append_cancel_right h

/-- A candidate is longer than the name it is made from. -/
theorem candidate_length (filename : Buf) (n : Nat) :
    (candidate filename n).length = (cstr filename).length + 2 + (decimal n).length := by
  by_cases hdot : 46 ∈ cstr filename
  · obtain ⟨u, v, huv, hv⟩ := exists_last_dot _ hdot
    rw [candidate_dot filename n u v huv hv, huv]
    simp only [List.length_append, List.length_cons, List.length_nil]
    omega
  · rw [candidate_nodot filename n hdot]
    simp only [List.length_append, List.length_cons, List.length_nil]
    omega

/-- The desired name and the candidates are pairwise distinct names. -/
theorem probeOrder_nodup (filename : Buf) (k : Nat) : (probeOrder filename k).Nodup := by
  unfold probeOrder
  rw [List.nodup_cons]
  constructor
  · intro hmem
    obtain ⟨n, _, hn⟩ := List.mem_map.mp hmem
    have := candidate_length filename n
    rw [hn] at this
    omega
  · exact List.Nodup.map (fun n m h => candidate_injective filename n m h)
      (List.nodup_range' 1 k)

theorem probeOrder_prefix (filename : Buf) (k : Nat) (hk : k ≤ 999) :
    probeOrder filename k <+: probeOrder filename 999 := by
  unfold probeOrder
  have hsplit : List.range' 1 999 = List.range' 1 k ++ List.range' (1 + k) (999 - k) := by
    have := List.range'_append 1 k (999 - k) 1
    rw [Nat.one_mul, show 999 - k + k = 999 by omega] at this
    exact this.symm
  rw [hsplit, List.map_append]
  exact ⟨List.map (candidate filename) (List.range' (1 + k) (999 - k)), by simp⟩

/-- C10: the names on which a run checks existence are
`[desired, candidate 1, ..., candidate k]` for some `k ≤ 999`, a prefix of
`[desired, candidate 1, ..., candidate 999]`; every check but the last one of
the run found the name taken; and the names of that list are pairwise distinct,
so no name is checked twice. -/
theorem main_probe_order (argc : Int) (argv : List Buf) (filename numbered_filename : Buf)
    (numstr0 : Nat → Buf) (fs : FileSys) :
    (∃ k, k ≤ 999 ∧
      (queries (main argc argv filename numbered_filename numstr0 fs).trace).map Prod.fst
        = probeOrder (init_filename argc argv filename) k) ∧
    (queries (main argc argv filename numbered_filename numstr0 fs).trace).map Prod.fst
      <+: probeOrder (init_filename argc argv filename) 999 ∧
    (∀ q ∈ (queries (main argc argv filename numbered_filename numstr0 fs).trace).dropLast,
      q.2 = true) ∧
    (probeOrder (init_filename argc argv filename) 999).Nodup ∧
    ((queries (main argc argv filename numbered_filename numstr0 fs).trace).map Prod.fst).Nodup
    := by
  have key : ∃ k, k ≤ 999 ∧
      (queries (main argc argv filename numbered_filename numstr0 fs).trace).map Prod.fst
        = probeOrder (init_filename argc argv filename) k ∧
      (∀ q ∈ (queries (main argc argv filename numbered_filename numstr0 fs).trace).dropLast,
        q.2 = true) := by
    rcases allocate_cases fs (init_filename argc argv filename) numbered_filename numstr0 with
      ⟨_, hrun⟩ | ⟨_, n0, h1, h999, _, _, hrun⟩ | ⟨_, _, hrun⟩
    · refine ⟨0, by omega, ?_⟩
      rw [main, hrun, create_and_report_name fs _ (cstr_idem _)]
      by_cases hc : fs.open_create (cstr (init_filename argc argv filename)) < 0
      · simp [hc, Run.after, queries, probeOrder]
      · simp [hc, Run.after, queries, probeOrder]
    · refine ⟨n0, h999, ?_⟩
      have hq : queries (main argc argv filename numbered_filename numstr0 fs).trace
          = (cstr (init_filename argc argv filename), true) ::
            ((List.range' 1 (n0 - 1)).map
              (fun m => (candidate (init_filename argc argv filename) m, true)) ++
              [(candidate (init_filename argc argv filename) n0, false)]) := by
        rw [main, hrun, create_and_report_name fs _ (cstr_candidate _ _)]
        by_cases hc : fs.open_create (candidate (init_filename argc argv filename) n0) < 0
        · simp only [hc, if_true, Run.after]
          exact (obs_found _ _ _ _ _ _ _ _).2.2.2
        · simp only [hc, if_false, Run.after]
          exact (obs_found _ _ _ _ _ _ _ _).2.2.2
      rw [hq]
      constructor
      · have hr : List.range' 1 n0 = List.range' 1 (n0 - 1) ++ [n0] := by
          have := @List.range'_concat 1 1 (n0 - 1)
          have h2 : n0 - 1 + 1 = n0 := by omega
          rw [h2] at this
          rw [this]
          congr 2
          omega
        simp only [probeOrder, hr, List.map_cons, List.map_append, List.map_map, List.map_nil]
        rfl
      · intro q hq'
        rw [← List.cons_append, List.dropLast_concat] at hq'
        simp only [List.mem_cons, List.mem_map] at hq'
        rcases hq' with rfl | ⟨m, _, rfl⟩ <;> rfl
    · refine ⟨999, le_refl _, ?_⟩
      have hq := (obs_exhausted (init_filename argc argv filename)
        (cstr (init_filename argc argv filename)) msgExhausted 1 999).2.2.2
      rw [main, hrun]
      simp only [hq]
      constructor
      · simp only [probeOrder, List.map_cons, List.map_map]
        rfl
      · intro q hq'
        have := List.mem_of_mem_dropLast hq'
        simp only [List.mem_cons, List.mem_map] at this
        rcases this with rfl | ⟨m, _, rfl⟩ <;> rfl
  obtain ⟨k, hk, hnames, hlast⟩ := key
  refine ⟨⟨k, hk, hnames⟩, ?_, hlast, probeOrder_nodup _ 999, ?_⟩
  · rw [hnames]; exact probeOrder_prefix _ k hk
  · rw [hnames]; exact probeOrder_nodup _ k

/-! ## `itoa` on negative numbers -/

theorem tdiv_neg_natCast (m : Nat) : Int.tdiv (-(m : Int)) 10 = -((m / 10 : Nat) : Int) := by
  rw [Int.neg_tdiv]
  congr 1

theorem tmod_neg_natCast (m : Nat) : Int.tmod (-(m : Int)) 10 = -((m % 10 : Nat) : Int) := by
  cases m with
  | zero => rfl
  | succ k => rfl

theorem toChar_neg_digit (d : Nat) (hd : d < 10) : toChar (-(d : Int) + 48) = 48 - d := by
  simp only [toChar]
  omega

/-- On a number that is not positive the digit loop writes, for each decimal
digit `d` of its absolute value, least significant first, the byte `'0' - d`. -/
theorem itoaDigits_neg_natCast (n : Nat) : ∀ (pre rest : List Nat) (i : Nat), i = pre.length →
    itoaDigits (-(n : Int)) (pre ++ rest) i =
      (pre ++ (Nat.digits 10 n).map (fun d => 48 - d) ++ rest.drop (Nat.digits 10 n).length,
        i + (Nat.digits 10 n).length) := by
  induction n using Nat.strong_induction_on with
  | _ n ih =>
    intro pre rest i hi
    rw [itoaDigits]
    by_cases hn : n = 0
    · subst hn
      simp
    · have hpos : 0 < n := Nat.pos_of_ne_zero hn
      have hne : -(n : Int) ≠ 0 := by omega
      rw [if_pos hne, tdiv_neg_natCast, tmod_neg_natCast,
        toChar_neg_digit _ (Nat.mod_lt _ (by omega)), bufWrite_append pre rest i _ hi]
      have hstep := ih (n / 10) (Nat.div_lt_self hpos (by omega)) (pre ++ [48 - n % 10])
        (rest.drop 1) (i + 1) (by simp [hi])
      have hcons : pre ++ (48 - n % 10) :: rest.drop 1 = (pre ++ [48 - n % 10]) ++ rest.drop 1 := by
        simp
      rw [hcons, hstep, Nat.digits_def' (by omega) hpos]
      simp
      omega

/-- The number whose digits `itoa` writes: `num`, negated modulo 2^32 when it is
negative. -/
theorem itoa_of_digits (num : Int) (str ds : List Nat)
    (hnz : (if num < 0 then wrap32 (-num) else num) ≠ 0)
    (hds : itoaDigits (if num < 0 then wrap32 (-num) else num) str 0
      = (ds ++ str.drop ds.length, ds.length)) :
    itoa num str = (ds ++ (if num < 0 then [45] else [])).reverse ++
      0 :: str.drop ((ds ++ (if num < 0 then [45] else [])).length + 1) := by
  simp only [itoa, hnz, if_false, hds]
  by_cases hneg : num < 0
  · simp only [hneg, decide_True, if_true]
    rw [bufWrite_append ds _ _ 45 rfl]
    have h1 : ds ++ 45 :: (str.drop ds.length).drop 1
        = (ds ++ [45]) ++ (str.drop ds.length).drop 1 := by simp
    rw [h1, bufWrite_append _ _ _ 0 (by simp)]
    have hrev := itoaReverse_segment _ (ds ++ [45]) []
      (0 :: ((str.drop ds.length).drop 1).drop 1) 0 (ds.length + 1 - 1) rfl rfl (by simp)
    simp only [List.nil_append] at hrev
    rw [hrev]
    simp only [List.drop_drop, List.length_append, List.length_cons, List.length_nil]
  · simp only [hneg, decide_False, if_false, Bool.false_eq_true, List.append_nil]
    rw [bufWrite_append ds _ _ 0 rfl]
    have hrev := itoaReverse_segment _ ds []
      (0 :: (str.drop ds.length).drop 1) 0 (ds.length - 1) rfl rfl (by simp)
    simp only [List.nil_append] at hrev
    rw [hrev]
    simp only [List.drop_drop]

theorem wrap32_natAbs_le (x : Int) : (wrap32 x).natAbs ≤ 2147483648 := by
  simp only [wrap32]
  omega

theorem digits_length_le_ten (m : Nat) (hm : m ≤ 2147483648) :
    (Nat.digits 10 m).length ≤ 10 := by
  have h := Nat.le_digits_len_le 10 m 2147483648 hm
  have h10 : (Nat.digits 10 2147483648).length = 10 := by norm_num
  omega

/-- The shape of the buffer after `itoa(num, str)`: a NUL-free text that depends
on `num` only, its terminator, and the bytes of `str` that were not written.
The text has at most one byte more than `num`, negated modulo 2^32 when
negative, has decimal digits. -/
theorem itoa_buf_exists (num : Int) :
    ∃ text : List Nat,
      (∀ str : Buf, itoa num str = text ++ 0 :: str.drop (text.length + 1)) ∧
      (∀ c ∈ text, c ≠ 0) ∧
      text.length ≤
        (Nat.digits 10 (if num < 0 then wrap32 (-num) else num).natAbs).length + 1 ∧
      1 ≤ text.length := by
  by_cases hz : (if num < 0 then wrap32 (-num) else num) = 0
  · refine ⟨[48], fun str => ?_, by simp, by simp, by simp⟩
    have h1 : bufWrite str 0 48 = [48] ++ str.drop 1 := bufWrite_zero str 48
    have h2 := bufWrite_append [48] (str.drop 1) 1 0 rfl
    simp only [itoa, hz, if_true, h1, h2]
    simp
  · rcases Int.le_total 0 (if num < 0 then wrap32 (-num) else num) with hpos | hneg
    · obtain ⟨k, hk⟩ := Int.eq_ofNat_of_zero_le hpos
      have hnat : (if num < 0 then wrap32 (-num) else num).natAbs = k := by rw [hk]; rfl
      have hk0 : k ≠ 0 := by
        intro h0; apply hz; rw [hk, h0]; rfl
      refine ⟨((Nat.digits 10 k).map (fun d => d + 48) ++
        (if num < 0 then [45] else [])).reverse, fun str => ?_, ?_, ?_, ?_⟩
      · have hds := itoaDigits_natCast k [] str 0 rfl
        simp only [List.nil_append, Nat.zero_add] at hds
        have := itoa_of_digits num str ((Nat.digits 10 k).map (fun d => d + 48)) hz
          (by rw [hk, hds]; simp)
        rw [this]
        simp only [List.length_reverse]
      · intro c hc
        simp only [List.mem_reverse, List.mem_append] at hc
        rcases hc with hc | hc
        · have := decimal_digit_chars k c hc
          omega
        · split at hc <;> simp at hc
          omega
      · rw [hnat]
        split <;> simp
      · have : Nat.digits 10 k ≠ [] := Nat.digits_ne_nil_iff_ne_zero.mpr hk0
        have := List.length_pos.mpr this
        simp only [List.length_reverse, List.length_append, List.length_map]
        omega
    · obtain ⟨k, hk⟩ := Int.eq_ofNat_of_zero_le (by omega :
        0 ≤ -(if num < 0 then wrap32 (-num) else num))
      have hk' : (if num < 0 then wrap32 (-num) else num) = -(k : Int) := by omega
      have hnat : (if num < 0 then wrap32 (-num) else num).natAbs = k := by rw [hk']; simp
      have hk0 : k ≠ 0 := by
        intro h0; apply hz; rw [hk', h0]; rfl
      refine ⟨((Nat.digits 10 k).map (fun d => 48 - d) ++
        (if num < 0 then [45] else [])).reverse, fun str => ?_, ?_, ?_, ?_⟩
      · have hds := itoaDigits_neg_natCast k [] str 0 rfl
        simp only [List.nil_append, Nat.zero_add] at hds
        have := itoa_of_digits num str ((Nat.digits 10 k).map (fun d => 48 - d)) hz
          (by rw [hk', hds]; simp)
        rw [this]
        simp only [List.length_reverse]
      · intro c hc
        simp only [List.mem_reverse, List.mem_append] at hc
        rcases hc with hc | hc
        · obtain ⟨d, hd, rfl⟩ := List.mem_map.mp hc
          have := Nat.digits_lt_base (by norm_num : 1 < 10) hd
          omega
        · split at hc <;> simp at hc
          omega
      · rw [hnat]
        split <;> simp
      · have : Nat.digits 10 k ≠ [] := Nat.digits_ne_nil_iff_ne_zero.mpr hk0
        have := List.length_pos.mpr this
        simp only [List.length_reverse, List.length_append, List.length_map]
        omega

/-- The buffer after `generate_numbered_name`: a NUL-free name that depends on
the base name and on `num` only, its terminator, and the bytes of the output
buffer that were not written. -/
theorem generate_buf_exists (base_name : Buf) (num : Int) :
    ∃ name : List Nat, (∀ c ∈ name, c ≠ 0) ∧
      (cstr base_name).length + 3 ≤ name.length ∧
      ∀ out numstr : Buf, generate_numbered_name base_name out num numstr
        = name ++ 0 :: out.drop (name.length + 1) := by
  obtain ⟨text, htext, hnz, _, hlen⟩ := itoa_buf_exists num
  have hcs : ∀ numstr : Buf, cstr (itoa num numstr) = text := fun numstr => by
    rw [htext numstr]; exact cstr_append_nul text _ hnz
  by_cases hdot : 46 ∈ cstr base_name
  · obtain ⟨u, v, huv, hv⟩ := exists_last_dot _ hdot
    obtain ⟨hu, hw⟩ := not_mem_of_append_eq_cstr huv
    refine ⟨u ++ [40] ++ text ++ [41] ++ 46 :: v, ?_, ?_, fun out numstr => ?_⟩
    · intro c hc
      simp only [List.mem_append, List.mem_cons, List.mem_singleton, List.not_mem_nil,
        or_false] at hc
      rcases hc with (((hc | hc) | hc) | hc) | hc
      · exact hu c hc
      · omega
      · exact hnz c hc
      · omega
      · rcases hc with hc | hc
        · omega
        · exact hw c (List.mem_cons_of_mem _ hc)
    · rw [huv]
      simp only [List.length_append, List.length_cons, List.length_nil]
      omega
    · rw [generate_buf_dot base_name out num numstr u v huv hv, hcs]
  · refine ⟨cstr base_name ++ [40] ++ text ++ [41], ?_, ?_, fun out numstr => ?_⟩
    · intro c hc
      simp only [List.mem_append, List.mem_cons, List.mem_singleton, List.not_mem_nil,
        or_false] at hc
      rcases hc with ((hc | hc) | hc) | hc
      · exact cstr_no_nul _ c hc
      · omega
      · exact hnz c hc
      · omega
    · simp only [List.length_append, List.length_cons, List.length_nil]
      omega
    · rw [generate_buf_nodot base_name out num numstr hdot, hcs]

/-! ## Purity and the bytes written -/

/-- C15: `generate_numbered_name` is a function of the base name and of `num`:
two calls with the same base name and the same `num` leave the same
NUL-terminated name, whatever the output buffer and the local array `numstr`
held before; the bytes written are that name and its terminator, from index 0
on. -/
theorem generate_numbered_name_pure (base_name : Buf) (num : Int) :
    (∀ out1 out2 numstr1 numstr2 : Buf,
      cstr (generate_numbered_name base_name out1 num numstr1)
        = cstr (generate_numbered_name base_name out2 num numstr2)) ∧
    ∃ name : List Nat, ∀ out numstr : Buf,
      cstr (generate_numbered_name base_name out num numstr) = name ∧
      (generate_numbered_name base_name out num numstr).take (name.length + 1)
        = name ++ [0] := by
  obtain ⟨name, hnz, _, hbuf⟩ := generate_buf_exists base_name num
  have hc : ∀ out numstr : Buf,
      cstr (generate_numbered_name base_name out num numstr) = name := fun out numstr => by
    rw [hbuf out numstr]; exact cstr_append_nul name _ hnz
  refine ⟨fun out1 out2 numstr1 numstr2 => by rw [hc, hc], name, fun out numstr => ⟨hc out numstr, ?_⟩⟩
  rw [hbuf out numstr]
  have : name ++ 0 :: out.drop (name.length + 1) = (name ++ [0]) ++ out.drop (name.length + 1) := by
    simp
  rw [this, List.take_left' (by simp)]

/-- C19: for every 32-bit `num`, the total function `itoa` writes a text of at
most 11 bytes and its terminator, at most 12 bytes from index 0 on: from the
empty buffer the result has at most 12 bytes, and on a buffer of 16 bytes, as
`numstr` in `generate_numbered_name`, the result has 16 bytes and the bytes from
index 12 on are as before. -/
theorem itoa_writes_at_most_12 (num : Int) (hlo : -2147483648 ≤ num)
    (hhi : num ≤ 2147483647) :
    (∃ text : List Nat, text.length + 1 ≤ 12 ∧
      ∀ str : Buf, itoa num str = text ++ 0 :: str.drop (text.length + 1)) ∧
    (itoa num []).length ≤ 12 ∧
    (∀ str : Buf, str.length = 16 →
      (itoa num str).length = 16 ∧ (itoa num str).drop 12 = str.drop 12) := by
  obtain ⟨text, htext, _, hlen, _⟩ := itoa_buf_exists num
  have habs : (if num < 0 then wrap32 (-num) else num).natAbs ≤ 2147483648 := by
    split
    · exact wrap32_natAbs_le _
    · omega
  have h10 := digits_length_le_ten _ habs
  have h11 : text.length + 1 ≤ 12 := by omega
  refine ⟨⟨text, h11, htext⟩, ?_, fun str hstr => ⟨?_, ?_⟩⟩
  · rw [htext []]
    simp only [List.drop_nil, List.length_append, List.length_cons, List.length_nil]
    omega
  · rw [htext str]
    simp only [List.length_append, List.length_cons, List.length_drop]
    omega
  · rw [htext str]
    have : text ++ 0 :: str.drop (text.length + 1)
        = (text ++ [0]) ++ str.drop (text.length + 1) := by simp
    rw [this, List.drop_append_eq_append_drop, List.drop_eq_nil_of_le (by simp; omega),
      List.nil_append, List.drop_drop]
    congr 1
    simp only [List.length_append, List.length_cons, List.length_nil]
    omega

/-- C19, at a concrete input: the least `int`, on a buffer of 16 bytes. -/
theorem itoa_writes_at_most_12_witness :
    (itoa (-2147483648) (List.replicate 16 7)).length = 16 ∧
    (itoa (-2147483648) (List.replicate 16 7)).drop 12 = (List.replicate 16 7).drop 12 :=
  (itoa_writes_at_most_12 (-2147483648) (by decide) (by decide)).2.2
    (List.replicate 16 7) (by decide)

/-! ## Negative numbers -/

/-- For a negative `num` above the least `int`, `itoa` writes `-` and the
numeral of `-num`. -/
theorem cstr_itoa_neg (num : Int) (hlo : -2147483648 < num) (hneg : num < 0) (str : Buf) :
    cstr (itoa num str) = 45 :: decimal (-num).toNat := by
  obtain ⟨k, hk⟩ := Int.eq_ofNat_of_zero_le (by omega : 0 ≤ -num)
  have hk0 : k ≠ 0 := by omega
  have hw : (if num < 0 then wrap32 (-num) else num) = (k : Int) := by
    rw [if_pos hneg, hk]
    simp only [wrap32]
    omega
  have hds := itoaDigits_natCast k [] str 0 rfl
  simp only [List.nil_append, Nat.zero_add] at hds
  have := itoa_of_digits num str ((Nat.digits 10 k).map (fun d => d + 48))
    (by rw [hw]; omega) (by rw [hw, hds]; simp)
  rw [this, hk, Int.toNat_ofNat]
  simp only [hneg, if_true, List.reverse_append, List.reverse_cons, List.reverse_nil,
    List.nil_append, List.singleton_append, List.cons_append]
  have hdec : decimal k = ((Nat.digits 10 k).map (fun d => d + 48)).reverse := by
    simp [decimal, hk0]
  rw [← hdec]
  exact cstr_append_nul (45 :: decimal k) _ (by
    intro c hc
    rcases List.mem_cons.mp hc with rfl | hc
    · omega
    · exact decimal_no_nul k c hc)

/-- C13, at the input where the claim fails: for the least `int`, whose negation
modulo 2^32 is the number itself, `itoa` writes `-./,),(-*,(`: the digit loop
runs on a negative number, and each digit `d` is written as `'0' - d`. -/
theorem itoa_int_min :
    cstr (itoa (-2147483648) (List.replicate 16 0)) = bytes "-./,),(-*,(" ∧
    cstr (itoa (-2147483648) (List.replicate 16 0)) ≠ bytes "-2147483648" := by
  have hw : (if (-2147483648 : Int) < 0 then wrap32 (-(-2147483648)) else -2147483648)
      = -((2147483648 : Nat) : Int) := by decide
  have hds := itoaDigits_neg_natCast 2147483648 [] (List.replicate 16 0) 0 rfl
  simp only [List.nil_append, Nat.zero_add] at hds
  have hbuf := itoa_of_digits (-2147483648) (List.replicate 16 0)
    ((Nat.digits 10 2147483648).map (fun d => 48 - d))
    (by rw [hw]; decide) (by rw [hw, hds]; simp)
  have hdig : Nat.digits 10 2147483648 = [8, 4, 6, 3, 8, 4, 7, 4, 1, 2] := by norm_num
  rw [hdig] at hbuf
  have hval : cstr (itoa (-2147483648) (List.replicate 16 0)) = bytes "-./,),(-*,(" := by
    rw [hbuf]
    decide
  exact ⟨hval, by rw [hval]; decide⟩

/-! ## The capacity of `numbered_filename` -/

theorem decimal_length_le_three (n : Nat) (hn : n ≤ 999) : (decimal n).length ≤ 3 := by
  unfold decimal
  split
  · simp
  · have h := Nat.le_digits_len_le 10 n 999 hn
    have h3 : (Nat.digits 10 999).length = 3 := by norm_num
    simp only [List.length_reverse, List.length_map]
    omega

/-- A name of at most 122 bytes leaves room for every candidate: the 128 bytes
of the output buffer stay 128 bytes. -/
theorem generate_fits_short_name (base_name out numstr : Buf) (n : Nat) (hn : n ≤ 999)
    (hlen : (cstr base_name).length ≤ 122) (hout : out.length = 128) :
    (generate_numbered_name base_name out (n : Int) numstr).length = 128 := by
  have hcand := generate_eq_candidate base_name out numstr n
  have hl := candidate_length base_name n
  have h3 := decimal_length_le_three n hn
  obtain ⟨name, hnz, _, hbuf⟩ := generate_buf_exists base_name (n : Int)
  have hname : name = candidate base_name n := by
    rw [← hcand, hbuf out numstr]; exact (cstr_append_nul name _ hnz).symm
  rw [hbuf out numstr, hname]
  simp only [List.length_append, List.length_cons, List.length_drop]
  omega

/-- C11, at an input where the claim fails: `argv[1]` is a name of 127 bytes,
which fills the 128 bytes of `filename` with its terminator; the call of
`generate_numbered_name` for `counter = 1` writes the 130 bytes of the candidate
and its terminator, so that the output buffer of 128 bytes has grown to 131:
the bytes at the indices 128, 129 and 130 are written past its end. -/
theorem generate_overflows_numbered_filename :
    (init_filename 2 [bytes "createfile", List.replicate 127 97 ++ [0]]
      (List.replicate 128 0)).length = 128 ∧
    cstr (init_filename 2 [bytes "createfile", List.replicate 127 97 ++ [0]]
      (List.replicate 128 0)) = List.replicate 127 97 ∧
    (generate_numbered_name
      (init_filename 2 [bytes "createfile", List.replicate 127 97 ++ [0]]
        (List.replicate 128 0))
      (List.replicate 128 0) 1 (List.replicate 16 0)).length = 131 := by
  have hc : cstr (List.replicate 127 97 ++ [0]) = List.replicate 127 97 :=
    cstr_append_nul _ [] (fun c hc => by rw [List.eq_of_mem_replicate hc]; decide)
  have hinit : init_filename 2 [bytes "createfile", List.replicate 127 97 ++ [0]]
      (List.replicate 128 0) = List.replicate 127 97 ++ [0] := by
    have hne : ¬ ((2 : Int) = 1) := by decide
    simp only [init_filename, hne, if_false, List.getD_cons_succ, List.getD_cons_zero, strlen,
      hc, List.length_replicate]
    rw [memmove_eq 128 _ _ (by simp)]
    rw [List.take_of_length_le (by simp), List.drop_eq_nil_of_le (by simp), List.append_nil]
  have hdot : 46 ∉ cstr (List.replicate 127 97 ++ [0]) := by
    rw [hc]
    intro h
    have := List.eq_of_mem_replicate h
    omega
  rw [hinit]
  refine ⟨by simp, hc, ?_⟩
  have h1 : ((1 : Nat) : Int) = 1 := rfl
  rw [← h1, generate_buf_nodot _ _ _ _ hdot, cstr_itoa_natCast, hc]
  simp [decimal]

/-! ## Dotfiles -/

/-- C14: for a base name whose only dot is its first byte, and `n ≥ 1`, the
stem is empty: `generate_numbered_name` writes `(`, the numeral of `n`, `)` and
the base name. -/
theorem generate_dotfile (name rest out numstr : List Nat) (n : Int)
    (hdot : 46 ∉ name) (hnul : 0 ∉ name) (hn : 1 ≤ n) :
    cstr (generate_numbered_name ((46 :: name) ++ 0 :: rest) out n numstr)
      = bytes "(" ++ decimal n.toNat ++ bytes ")" ++ (46 :: name) := by
  have hb : cstr ((46 :: name) ++ 0 :: rest) = [] ++ 46 :: name :=
    cstr_append_nul (46 :: name) rest (fun c hc h0 => by
      rcases List.mem_cons.mp hc with h | h
      · omega
      · exact hnul (h0 ▸ h))
  have hl : bytes "(" = [40] := by decide
  have hr : bytes ")" = [41] := by decide
  obtain ⟨k, rfl⟩ := Int.eq_ofNat_of_zero_le (by omega : 0 ≤ n)
  rw [generate_cstr_dot _ out k numstr [] name hb hdot, cstr_itoa_natCast, hl, hr,
    Int.toNat_ofNat]
  simp

/-- C14, at a concrete input: `.bashrc` with 1 gives `(1).bashrc`. -/
theorem generate_dotfile_witness :
    cstr (generate_numbered_name (bytes ".bashrc" ++ 0 :: List.replicate 120 7)
      (List.replicate 128 7) 1 (List.replicate 16 7)) = bytes "(1).bashrc" := by
  have h1 : decimal (1 : Int).toNat = bytes "1" := by simp [decimal]; decide
  have h := generate_dotfile (bytes "bashrc") (List.replicate 120 7) (List.replicate 128 7)
    (List.replicate 16 7) 1 (by decide) (by decide) (by decide)
  rw [h1] at h
  exact h

/-! ## Creation and the existence checks -/

theorem takenEvents_no_create (filename : Buf) (k : Nat) : ∀ c,
    ∀ e ∈ takenEvents filename c k, ∀ name ok, e ≠ Event.create name ok := by
  induction k with
  | zero => intro c e he; simp [takenEvents] at he
  | succ k ih =>
    intro c e he name ok
    simp only [takenEvents, List.mem_cons] at he
    rcases he with rfl | rfl | he
    · simp
    · simp
    · exact ih (c + 1) e he name ok

/-- A creation event of a trace that starts with events that are no creation
lies behind them. -/
theorem split_before_create (A : List Event) : ∀ (B pre post : List Event) (name : List Nat)
    (ok : Bool), (∀ e ∈ A, ∀ n o, e ≠ Event.create n o) →
    A ++ B = pre ++ Event.create name ok :: post →
    ∃ pre2, pre = A ++ pre2 ∧ B = pre2 ++ Event.create name ok :: post := by
  induction A with
  | nil => intro B pre post name ok _ h; exact ⟨pre, rfl, h⟩
  | cons a A ih =>
    intro B pre post name ok hA h
    cases pre with
    | nil =>
      simp only [List.nil_append, List.cons_append, List.cons.injEq] at h
      exact absurd h.1 (hA a (List.mem_cons_self _ _) name ok)
    | cons p pre =>
      simp only [List.cons_append, List.cons.injEq] at h
      obtain ⟨pre2, h1, h2⟩ := ih B pre post name ok
        (fun e he => hA e (List.mem_cons_of_mem _ he)) h.2
      exact ⟨pre2, by rw [h.1, h1]; rfl, h2⟩

/-- In the last three events of a run that creates, the creation follows the
check of the same name. -/
theorem create_in_tail (nm text : List Nat) (ok' : Bool) (pre2 post : List Event)
    (name : List Nat) (ok : Bool)
    (h : [Event.query nm false, Event.create nm ok', Event.print text]
      = pre2 ++ Event.create name ok :: post) :
    pre2 = [Event.query nm false] ∧ name = nm ∧ ok = ok' ∧ post = [Event.print text] := by
  cases pre2 with
  | nil => simp at h
  | cons x pre2 =>
    cases pre2 with
    | nil =>
      simp only [List.cons_append, List.nil_append, List.cons.injEq, Event.create.injEq] at h
      obtain ⟨hx, ⟨hn, ho⟩, hp⟩ := h
      exact ⟨by rw [hx], hn.symm, ho.symm, hp.symm⟩
    | cons y pre2 =>
      cases pre2 with
      | nil => simp at h
      | cons z pre2 => simp at h

theorem creates_of_no_create (A : List Event)
    (hA : ∀ e ∈ A, ∀ n o, e ≠ Event.create n o) : creates A = [] := by
  induction A with
  | nil => rfl
  | cons a A ih =>
    have ih' := ih (fun e he => hA e (List.mem_cons_of_mem _ he))
    cases a with
    | create n o => exact absurd rfl (hA _ (List.mem_cons_self _ _) n o)
    | query n f => simpa [creates] using ih'
    | generate n => simpa [creates] using ih'
    | print t => simpa [creates] using ih'

/-- The shape of the trace of a run: events that are no creation, followed
either by the check that finds a name free, its creation and the report, or by
the report of exhaustion. -/
theorem main_trace_shape (argc : Int) (argv : List Buf) (filename numbered_filename : Buf)
    (numstr0 : Nat → Buf) (fs : FileSys) :
    (∃ (A : List Event) (nm : List Nat) (ok : Bool),
      (∀ e ∈ A, ∀ n o, e ≠ Event.create n o) ∧ present fs nm = false ∧
      (main argc argv filename numbered_filename numstr0 fs).trace
        = A ++ [Event.query nm false, Event.create nm ok,
            Event.print ((if ok then bytes "Created: " else bytes "Error: couldn't create file ")
              ++ nm ++ [10])] ∧
      (main argc argv filename numbered_filename numstr0 fs).status = (if ok then 0 else 1)) ∨
    (∃ A : List Event, (∀ e ∈ A, ∀ n o, e ≠ Event.create n o) ∧
      (main argc argv filename numbered_filename numstr0 fs).trace
        = A ++ [Event.print msgExhausted] ∧
      (main argc argv filename numbered_filename numstr0 fs).status = 1) := by
  rcases allocate_cases fs (init_filename argc argv filename) numbered_filename numstr0 with
    ⟨hd, hrun⟩ | ⟨_, n0, _, _, hfree, _, hrun⟩ | ⟨_, _, hrun⟩
  · left
    refine ⟨[], cstr (init_filename argc argv filename),
      decide (0 ≤ fs.open_create (cstr (init_filename argc argv filename))),
      by simp, hd, ?_⟩
    rw [main, hrun, create_and_report_name fs _ (cstr_idem _)]
    by_cases hc : fs.open_create (cstr (init_filename argc argv filename)) < 0
    · have hc' : ¬ 0 ≤ fs.open_create (cstr (init_filename argc argv filename)) := by omega
      simp [hc, hc', Run.after]
    · have hc' : 0 ≤ fs.open_create (cstr (init_filename argc argv filename)) := by omega
      simp [hc, hc', Run.after]
  · left
    refine ⟨Event.query (cstr (init_filename argc argv filename)) true ::
        takenEvents (init_filename argc argv filename) 1 (n0 - 1) ++ [Event.generate (n0 : Int)],
      candidate (init_filename argc argv filename) n0,
      decide (0 ≤ fs.open_create (candidate (init_filename argc argv filename) n0)),
      ?_, hfree, ?_⟩
    · intro e he n o
      simp only [List.cons_append, List.mem_cons, List.mem_append, List.mem_singleton,
        List.not_mem_nil, or_false] at he
      rcases he with rfl | he | rfl
      · simp
      · exact takenEvents_no_create _ _ _ e he n o
      · simp
    · rw [main, hrun, create_and_report_name fs _ (cstr_candidate _ _)]
      by_cases hc : fs.open_create (candidate (init_filename argc argv filename) n0) < 0
      · have hc' : ¬ 0 ≤ fs.open_create (candidate (init_filename argc argv filename) n0) := by
          omega
        simp [hc, hc', Run.after]
      · have hc' : 0 ≤ fs.open_create (candidate (init_filename argc argv filename) n0) := by
          omega
        simp [hc, hc', Run.after]
  · right
    refine ⟨Event.query (cstr (init_filename argc argv filename)) true ::
        takenEvents (init_filename argc argv filename) 1 999, ?_, ?_⟩
    · intro e he n o
      simp only [List.mem_cons] at he
      rcases he with rfl | he
      · simp
      · exact takenEvents_no_create _ _ _ e he n o
    · rw [main, hrun]
      exact ⟨rfl, rfl⟩

/-- C12: a run calls `open(name, O_CREATE | O_RDWR)` at most once, and when that
call fails the run ends with it and the report
`Error: couldn't create file <name>`, with status 1: no existence check, no
call of `generate_numbered_name` and no creation follows. -/
theorem main_create_not_retried (argc : Int) (argv : List Buf)
    (filename numbered_filename : Buf) (numstr0 : Nat → Buf) (fs : FileSys) :
    (creates (main argc argv filename numbered_filename numstr0 fs).trace).length ≤ 1 ∧
    ∀ name, (name, false) ∈
        creates (main argc argv filename numbered_filename numstr0 fs).trace →
      ∃ pre, creates pre = [] ∧
        (main argc argv filename numbered_filename numstr0 fs).trace
          = pre ++ [Event.create name false,
              Event.print (bytes "Error: couldn't create file " ++ name ++ [10])] ∧
        (main argc argv filename numbered_filename numstr0 fs).status = 1 := by
  rcases main_trace_shape argc argv filename numbered_filename numstr0 fs with
    ⟨A, nm, ok, hA, _, htr, hst⟩ | ⟨A, hA, htr, hst⟩
  · have hcA := creates_of_no_create A hA
    have hcr : creates (main argc argv filename numbered_filename numstr0 fs).trace
        = [(nm, ok)] := by
      rw [htr, creates_append, hcA]
      simp [creates]
    refine ⟨by rw [hcr]; simp, fun name hmem => ?_⟩
    rw [hcr] at hmem
    simp only [List.mem_singleton, Prod.mk.injEq] at hmem
    obtain ⟨rfl, rfl⟩ := hmem
    refine ⟨A ++ [Event.query name false], ?_, ?_, ?_⟩
    · rw [creates_append, hcA]; simp [creates]
    · rw [htr]; simp
    · rw [hst]; simp
  · have hcr : creates (main argc argv filename numbered_filename numstr0 fs).trace = [] := by
      rw [htr, creates_append, creates_of_no_create A hA]
      simp [creates]
    refine ⟨by rw [hcr]; simp, fun name hmem => ?_⟩
    rw [hcr] at hmem
    exact absurd hmem (by simp)

set_option maxRecDepth 100000 in
/-- C12, at a concrete input: `createfile notes.txt` when no file exists and the
creation is refused; the run is one check, one creation and the report. -/
theorem main_create_not_retried_witness :
    ∃ pre, creates pre = [] ∧
      (main 2 [bytes "createfile", bytes "notes.txt"] (List.replicate 128 7)
        (List.replicate 128 7) (fun _ => List.replicate 16 7) ⟨fun _ => -1, fun _ => -1⟩).trace
        = pre ++ [Event.create (bytes "notes.txt") false,
            Event.print (bytes "Error: couldn't create file " ++ bytes "notes.txt" ++ [10])] ∧
      (main 2 [bytes "createfile", bytes "notes.txt"] (List.replicate 128 7)
        (List.replicate 128 7) (fun _ => List.replicate 16 7) ⟨fun _ => -1, fun _ => -1⟩).status
        = 1 :=
  (main_create_not_retried 2 [bytes "createfile", bytes "notes.txt"] (List.replicate 128 7)
      (List.replicate 128 7) (fun _ => List.replicate 16 7) ⟨fun _ => -1, fun _ => -1⟩).2
    (bytes "notes.txt") (by decide)

/-- C16: every call of `open(name, O_CREATE | O_RDWR)` of a run comes right
after an existence check of the same name that answered that the name does not
exist, as the file system says. -/
theorem main_create_follows_free_check (argc : Int) (argv : List Buf)
    (filename numbered_filename : Buf) (numstr0 : Nat → Buf) (fs : FileSys) :
    ∀ (pre post : List Event) (name : List Nat) (ok : Bool),
      (main argc argv filename numbered_filename numstr0 fs).trace
        = pre ++ Event.create name ok :: post →
      (∃ pre2, pre = pre2 ++ [Event.query name false]) ∧ present fs name = false := by
  intro pre post name ok h
  rcases main_trace_shape argc argv filename numbered_filename numstr0 fs with
    ⟨A, nm, ok', hA, hfree, htr, _⟩ | ⟨A, hA, htr, _⟩
  · rw [htr] at h
    obtain ⟨pre2, hpre, hB⟩ := split_before_create A _ pre post name ok hA h
    obtain ⟨hp2, hname, _, _⟩ := create_in_tail nm _ ok' pre2 post name ok hB
    subst hname
    exact ⟨⟨A, by rw [hpre, hp2]⟩, hfree⟩
  · rw [htr] at h
    obtain ⟨pre2, _, hB⟩ := split_before_create A _ pre post name ok hA h
    cases pre2 with
    | nil => simp at hB
    | cons x pre2 =>
      cases pre2 with
      | nil => simp at hB
      | cons y pre2 => simp at hB

set_option maxRecDepth 100000 in
/-- C16, at a concrete input: `createfile notes.txt` on a file system without
files; the creation of `notes.txt` follows the check that did not find it. -/
theorem main_create_follows_free_check_witness :
    (∃ pre2, [Event.query (bytes "notes.txt") false]
      = pre2 ++ [Event.query (bytes "notes.txt") false]) ∧
    present ⟨fun _ => -1, fun _ => 3⟩ (bytes "notes.txt") = false :=
  main_create_follows_free_check 2 [bytes "createfile", bytes "notes.txt"]
    (List.replicate 128 7) (List.replicate 128 7) (fun _ => List.replicate 16 7)
    ⟨fun _ => -1, fun _ => 3⟩ [Event.query (bytes "notes.txt") false]
    [Event.print (bytes "Created: notes.txt\n")] (bytes "notes.txt") true (by decide)

/-! ## Distinct candidates and the extension -/

/-- C17: for a fixed base name, the names written for two numbers `m` and
`n ≥ 1`, which covers `m` and `n` in 1..999, are equal only if `m = n`; a
written name differs from the base name, and its length is the length of the
base name, plus 2, plus the number of decimal digits of `n`. -/
theorem generate_injective_in_n (base_name out1 out2 numstr1 numstr2 : Buf) (m n : Nat)
    (hn : 1 ≤ n) :
    (cstr (generate_numbered_name base_name out1 (m : Int) numstr1)
        = cstr (generate_numbered_name base_name out2 (n : Int) numstr2) → m = n) ∧
    cstr (generate_numbered_name base_name out1 (n : Int) numstr1) ≠ cstr base_name ∧
    (cstr (generate_numbered_name base_name out1 (n : Int) numstr1)).length
      = (cstr base_name).length + 2 + (Nat.digits 10 n).length := by
  have hlen := candidate_length base_name n
  have hdec : (decimal n).length = (Nat.digits 10 n).length := by
    have hn0 : n ≠ 0 := by omega
    simp [decimal, hn0]
  rw [generate_eq_candidate, generate_eq_candidate, generate_eq_candidate]
  refine ⟨fun h => candidate_injective base_name m n h, fun h => ?_, by rw [hlen, hdec]⟩
  rw [h] at hlen
  omega

/-- C17, at a concrete input: the length of the name written for `a.b` and 7. -/
theorem generate_injective_in_n_witness :
    (cstr (generate_numbered_name (bytes "a.b") [] ((7 : Nat) : Int) [])).length
      = (cstr (bytes "a.b")).length + 2 + (Nat.digits 10 7).length :=
  (generate_injective_in_n (bytes "a.b") [] [] [] [] 7 7 (by decide)).2.2

theorem extensionOf_nodot (name : List Nat) (h : 46 ∉ name) : extensionOf name = [] := by
  induction name with
  | nil => rfl
  | cons c s ih =>
    have hs : 46 ∉ s := fun hs => h (List.mem_cons_of_mem _ hs)
    have hc : c ≠ 46 := fun hc => h (by simp [hc])
    simp [extensionOf, hs, hc]

/-- The extension of a name split at its last dot. -/
theorem extensionOf_split (u v : List Nat) (hv : 46 ∉ v) :
    extensionOf (u ++ 46 :: v) = 46 :: v := by
  induction u with
  | nil => simp [extensionOf, hv]
  | cons c u ih =>
    have : 46 ∈ u ++ 46 :: v := by simp
    change extensionOf (c :: (u ++ 46 :: v)) = 46 :: v
    rw [extensionOf, if_pos this, ih]

/-- C18: the name written for `n ≥ 0` has the extension of the base name: its
text from its last dot on is the text of the base name from its last dot on, and
it has no dot when the base name has none. -/
theorem generate_preserves_extension (base_name out numstr : Buf) (n : Nat) :
    extensionOf (cstr (generate_numbered_name base_name out (n : Int) numstr))
      = extensionOf (cstr base_name) ∧
    (46 ∉ cstr base_name →
      46 ∉ cstr (generate_numbered_name base_name out (n : Int) numstr)) ∧
    (∀ u v, cstr base_name = u ++ 46 :: v → 46 ∉ v →
      extensionOf (cstr base_name) = 46 :: v ∧
      ∃ p, cstr (generate_numbered_name base_name out (n : Int) numstr) = p ++ 46 :: v) := by
  have hdig : 46 ∉ decimal n := fun h => by
    have := decimal_digits_only n 46 h
    omega
  rw [generate_eq_candidate]
  by_cases hdot : 46 ∈ cstr base_name
  · obtain ⟨u, v, huv, hv⟩ := exists_last_dot _ hdot
    have hcand := candidate_dot base_name n u v huv hv
    have hsplit : u ++ [40] ++ decimal n ++ [41] ++ 46 :: v
        = (u ++ [40] ++ decimal n ++ [41]) ++ 46 :: v := rfl
    refine ⟨?_, fun hno => absurd hdot hno, fun u' v' huv' hv' => ?_⟩
    · rw [hcand, hsplit, extensionOf_split _ v hv, huv, extensionOf_split u v hv]
    · have he : extensionOf (cstr base_name) = 46 :: v' := by
        rw [huv', extensionOf_split u' v' hv']
      have he2 : extensionOf (cstr base_name) = 46 :: v := by
        rw [huv, extensionOf_split u v hv]
      have hvv : v = v' := by
        rw [he] at he2
        exact (List.cons.inj he2).2.symm
      subst hvv
      exact ⟨he, u ++ [40] ++ decimal n ++ [41], hcand⟩
  · have hcand := candidate_nodot base_name n hdot
    have hno : 46 ∉ candidate base_name n := by
      rw [hcand]
      simp only [List.mem_append, List.mem_singleton, not_or]
      exact ⟨⟨⟨hdot, by omega⟩, hdig⟩, by omega⟩
    refine ⟨?_, fun _ => hno, fun u v huv _ => ?_⟩
    · rw [extensionOf_nodot _ hno, extensionOf_nodot _ hdot]
    · exact absurd (by rw [huv]; simp) hdot

end Createfile
